import Mathlib

/-!
# Verification of the URL sanitization engine

A shallow embedding of the rule-based URL sanitizer of the Sanitized-TG-URL-Bot
repository (function `sanitizeURL` and its helpers in the current version of
`sanitizetelebot.go`, together with the rule tables), plus theorems settling the
frozen specification claims.  Network calls (short-link expansion, the photo
manifest API, image downloads) and `url.Parse` are modelled as oracle parameters;
everything else is translated directly from the Go source.
-/

namespace SanitizeBot

/-! ## String primitives (Go `strings` semantics, on `List Char`) -/

/-- Go `strings.HasPrefix s pre`. -/
def strStartsWith (s pre : String) : Bool := pre.data.isPrefixOf s.data

/-- Go `strings.HasSuffix s suf`. -/
def strEndsWith (s suf : String) : Bool := suf.data.reverse.isPrefixOf s.data.reverse

/-- Helper for `strContainsSub`: does `sub` occur as a contiguous sublist of `l`? -/
def listContainsSub (l sub : List Char) : Bool :=
  match l with
  | [] => sub.isEmpty
  | c :: tl => sub.isPrefixOf (c :: tl) || listContainsSub tl sub

/-- Go `strings.Contains s sub`. -/
def strContainsSub (s sub : String) : Bool := listContainsSub s.data sub.data

/-- Split a character list at every occurrence of `c` (Go `strings.Split` semantics:
the result always has one more part than there are separators). -/
def splitCharList (c : Char) : List Char → List (List Char)
  | [] => [[]]
  | x :: xs =>
    match splitCharList c xs with
    | [] => [[]]
    | h :: t => if x == c then [] :: h :: t else (x :: h) :: t

/-- Go `strings.Split s (String.singleton c)`. -/
def splitStr (c : Char) (s : String) : List String :=
  (splitCharList c s.data).map (fun l => ⟨l⟩)

/-- Go `unicode.IsSpace` (the White_Space table used by `strings.Fields` and
`strings.TrimSpace`). -/
def goIsSpace (c : Char) : Bool :=
  c == ' ' || c == '\t' || c == '\n' || c == '\x0b' || c == '\x0c' || c == '\r' ||
  c == '\x85' || c == '\xa0' || c.val == 0x1680 ||
  (0x2000 ≤ c.val && c.val ≤ 0x200a) ||
  c.val == 0x2028 || c.val == 0x2029 || c.val == 0x202f || c.val == 0x205f ||
  c.val == 0x3000

/-- Split a character list at every single whitespace character. -/
def splitSpaceList : List Char → List (List Char)
  | [] => [[]]
  | x :: xs =>
    match splitSpaceList xs with
    | [] => [[]]
    | h :: t => if goIsSpace x then [] :: h :: t else (x :: h) :: t

/-- Go `strings.Fields s`: the maximal runs of non-whitespace characters. -/
def goFields (s : String) : List String :=
  ((splitSpaceList s.data).filter (fun w => !w.isEmpty)).map (fun l => ⟨l⟩)

/-- Go `strings.TrimSpace s == ""`. -/
def isBlank (s : String) : Bool := s.data.all goIsSpace

/-- Drop one trailing carriage return (Go `bufio.ScanLines` behaviour). -/
def dropCR (l : List Char) : List Char :=
  if l.getLast? == some '\r' then l.dropLast else l

/-- Go `bufio.Scanner` with `bufio.ScanLines` over the whole input: the input is
split at every newline, a final newline produces no extra empty line, a trailing
`\r` is stripped from each line, and the empty input yields no lines. -/
def scanLines (s : String) : List String :=
  match s.data with
  | [] => []
  | c :: cs =>
    let l := c :: cs
    let parts := splitCharList '\n' l
    let parts := if l.getLast? == some '\n' then parts.dropLast else parts
    parts.map (fun part => ⟨dropCR part⟩)

/-- Byte-lexicographic order on strings (Go `sort.Strings` order; UTF-8 byte order
coincides with code-point order). -/
def lexLe : List Char → List Char → Bool
  | [], _ => true
  | _ :: _, [] => false
  | a :: as, b :: bs => if a.toNat == b.toNat then lexLe as bs else decide (a.toNat < b.toNat)

def strLe (a b : String) : Bool := lexLe a.data b.data

/-- Insert into a `strLe`-sorted list. -/
def insertSorted (x : String) : List String → List String
  | [] => [x]
  | y :: ys => if strLe x y then x :: y :: ys else y :: insertSorted x ys

/-- Sort a list of strings in ascending byte-lexicographic order
(the order used by `url.Values.Encode`, which calls `sort.Strings`). -/
def sortStrings : List String → List String
  | [] => []
  | x :: xs => insertSorted x (sortStrings xs)

/-! ## The rule tables

Copied verbatim from the source (`universalRules` / `hostRules` in the rule-table
version of `sanitizeURL`; the current version refers to the same tables as
`URLRules` / `DomainRules` in `rules.go`). -/

def URLRules : List String := [
  "action_object_map",
  "action_type_map",
  "action_ref_map",
  "spm@*.aliexpress.com",
  "scm@*.aliexpress.com",
  "aff_platform",
  "aff_trace_key",
  "algo_expid@*.aliexpress.*",
  "algo_pvid@*.aliexpress.*",
  "btsid",
  "ws_ab_test",
  "pd_rd_*@amazon.*",
  "_encoding@amazon.*",
  "psc@amazon.*",
  "tag@amazon.*",
  "ref_@amazon.*",
  "pf_rd_*@amazon.*",
  "pf@amazon.*",
  "crid@amazon.*",
  "keywords@amazon.*",
  "sprefix@amazon.*",
  "sr@amazon.*",
  "ie@amazon.*",
  "node@amazon.*",
  "qid@amazon.*",
  "callback@bilibili.com",
  "cvid@bing.com",
  "form@bing.com",
  "sk@bing.com",
  "sp@bing.com",
  "sc@bing.com",
  "qs@bing.com",
  "pq@bing.com",
  "sc_cid",
  "mkt_tok",
  "trk",
  "trkCampaign",
  "ga_*",
  "gclid",
  "gclsrc",
  "hmb_campaign",
  "hmb_medium",
  "hmb_source",
  "spReportId",
  "spJobID",
  "spUserID",
  "spMailingID",
  "itm_*",
  "s_cid",
  "elqTrackId",
  "elqTrack",
  "assetType",
  "assetId",
  "recipientId",
  "campaignId",
  "siteId",
  "mc_cid",
  "mc_eid",
  "pk_*",
  "sc_campaign",
  "sc_channel",
  "sc_content",
  "sc_medium",
  "sc_outcome",
  "sc_geo",
  "sc_country",
  "nr_email_referer",
  "vero_conv",
  "vero_id",
  "yclid",
  "_openstat",
  "mbid",
  "cmpid",
  "cid",
  "c_id",
  "campaign_id",
  "Campaign",
  "hash@ebay.*",
  "fb_action_ids",
  "fb_action_types",
  "fb_ref",
  "fb_source",
  "fbclid",
  "refsrc@facebook.com",
  "hrc@facebook.com",
  "gs_l",
  "gs_lcp@google.*",
  "ved@google.*",
  "ei@google.*",
  "sei@google.*",
  "gws_rd@google.*",
  "gs_gbg@google.*",
  "gs_mss@google.*",
  "gs_rn@google.*",
  "_hsenc",
  "_hsmi",
  "__hssc",
  "__hstc",
  "hsCtaTracking",
  "source@sourceforge.net",
  "position@sourceforge.net",
  "t@*.twitter.com",
  "s@*.twitter.com",
  "ref_*@*.twitter.com",
  "t@*.x.com",
  "s@*.x.com",
  "ref_*@*.x.com",
  "t@*.fixupx.com",
  "s@*.fixupx.com",
  "ref_*@*.fixupx.com",
  "t@*.fxtwitter.com",
  "s@*.fxtwitter.com",
  "ref_*@*.fxtwitter.com",
  "t@*.twittpr.com",
  "s@*.twittpr.com",
  "ref_*@*.twittpr.com",
  "t@*.fixvx.com",
  "s@*.fixvx.com",
  "ref_*@*.fixvx.com",
  "tt_medium",
  "tt_content",
  "lr@yandex.*",
  "redircnt@yandex.*",
  "feature@*.youtube.com",
  "kw@*.youtube.com",
  "si@*.youtube.com",
  "pp@*.youtube.com",
  "si@*.youtu.be",
  "wt_zmc",
  "utm_source",
  "utm_content",
  "utm_medium",
  "utm_campaign",
  "utm_term",
  "si@open.spotify.com",
  "igshid",
  "igsh",
  "share_id@reddit.com",
  "si@soundcloud.com"]

def DomainRules : List (String × List String) := [
  ("amazon", ["pd_rd_", "_encoding", "psc", "tag", "ref_", "pf_rd_", "pf", "crid"]),
  ("youtube.com", ["feature", "kw", "si", "pp"]),
  ("youtu.be", ["si"]),
  ("twitter.com", ["t", "s", "ref_"]),
  ("x.com", ["t", "s", "ref_"]),
  ("instagram.com", ["igshid"]),
  ("spotify.com", ["si"]),
  ("reddit.com", ["share_id"]),
  ("soundcloud.com", ["si"]),
  ("tiktok", ["_r", "_t"])]

/-! ## The rule matcher, as implemented

The source deletes a query parameter `param` of a URL with host `host` when
`strings.HasPrefix(param, rule)` holds for some entry `rule` of `URLRules`
(the *whole* rule string, `@domain` suffix and `*` characters included), or when
some `(key, rules)` entry of `DomainRules` has `key` a substring of `host` and
some `rule` in `rules` with `strings.HasPrefix(param, rule)`. -/

def universalMatch (param : String) : Bool :=
  URLRules.any (fun rule => strStartsWith param rule)

def domainMatch (param host : String) : Bool :=
  DomainRules.any (fun dr => strContainsSub host dr.1 && dr.2.any (fun rule => strStartsWith param rule))

/-- The implemented rule matcher: `shouldRemove(paramName, host)` of the spec,
translated from the two deletion loops of `sanitizeURL`. -/
def shouldRemoveParam (param host : String) : Bool :=
  universalMatch param || domainMatch param host

/-! ## The rule matcher, as specified

Modelled from the spec: the spec (and claim C1) read a rule string
`matchString@domainGlob` as a parameter-name prefix `matchString` (a trailing `*`
being an explicit prefix marker) scoped to hosts matching `domainGlob`, where `*`
in the glob matches one or more subdomain labels.  The Go code never parses `@`
or `*`; this definition follows the spec words so that the two can be compared. -/

def ruleMatchString (rule : String) : String :=
  match splitStr '@' rule with
  | [] => rule
  | m :: _ => m

def ruleDomainGlob (rule : String) : Option String :=
  match splitStr '@' rule with
  | _ :: g :: _ => some g
  | _ => none

/-- Strip one trailing `*` (spec: a rule ending in `*` is a plain prefix rule). -/
def stripStar (s : String) : String :=
  if strEndsWith s "*" then ⟨s.data.dropLast⟩ else s

/-- Glob matching on dot-separated labels; `*` matches one or more labels. -/
def globMatch : List String → List String → Bool
  | gs, [] => gs.isEmpty
  | [], _ :: _ => false
  | g :: gs, h :: hs =>
    if g == "*" then globMatch gs hs || globMatch (g :: gs) hs
    else g == h && globMatch gs hs

/-- Spec glob check: does `host` match the domain glob `g`? -/
def hostMatchGlob (g host : String) : Bool :=
  globMatch (splitStr '.' g) (splitStr '.' host)

/-- Modelled from the spec: the rule matcher as claim C1 states it (universal rules
with parsed `matchString` and optional domain glob, plus the domain rule map). -/
def specShouldRemove (param host : String) : Bool :=
  URLRules.any (fun rule =>
    strStartsWith param (stripStar (ruleMatchString rule)) &&
      (match ruleDomainGlob rule with
       | none => true
       | some g => hostMatchGlob g host)) ||
  domainMatch param host

/-! ## Parsed URLs

A parsed URL as the engine uses it: scheme, host, path and the raw query modelled
as an ordered list of name–value pairs (`RawQuery` is empty iff the list is).
Percent-escaping is identity in this model; names and values are taken as the
already-encoded tokens. -/

structure ParsedURL where
  scheme : String
  host : String
  path : String
  query : List (String × String)
deriving Repr, DecidableEq, BEq

/-- `url.URL.String()` restricted to the fields of the model. -/
def encodeQuery (q : List (String × String)) : String :=
  match q with
  | [] => ""
  | _ => "?" ++ "&".intercalate (q.map (fun pr => pr.1 ++ "=" ++ pr.2))

def serialize (p : ParsedURL) : String :=
  p.scheme ++ "://" ++ p.host ++ p.path ++ encodeQuery p.query

/-- `url.Values.Encode()` as a query transformation: the (deduplicated) names are
sorted with `sort.Strings` and each name's values follow in their original order. -/
def encodeValues (q : List (String × String)) : List (String × String) :=
  ((sortStrings ((q.map Prod.fst).dedup)).map (fun k => q.filter (fun pr => pr.1 == k))).flatten

/-- The parameter-cleaning step of `sanitizeURL`: delete every parameter the rule
matcher flags; if anything was deleted, re-encode the query with
`url.Values.Encode` (`paramsModified` guard), otherwise leave `RawQuery` untouched. -/
def stripParams (host : String) (q : List (String × String)) : List (String × String) :=
  if q.any (fun pr => shouldRemoveParam pr.1 host) then
    encodeValues (q.filter (fun pr => !shouldRemoveParam pr.1 host))
  else q

/-! ## Domain rewrite steps (the special-case `if` chain of `sanitizeURL`) -/

/-- TikTok block: rewrite non-photo, non-live tiktok hosts to `vm.dstn.to`; drop
the query of live URLs.  Returns `(url, hostRewritten, queryDropped)`. -/
def stepTiktok (p : ParsedURL) : ParsedURL × Bool × Bool :=
  if strEndsWith p.host "tiktok.com" then
    let hp :=
      if !strContainsSub p.path "/photo/" && !strContainsSub p.path "/live" then
        if p.host == "vm.dstn.to" then (p, false)
        else ({ p with host := "vm.dstn.to" }, true)
      else (p, false)
    let p1 := hp.1
    if strContainsSub p1.path "/live" && !p1.query.isEmpty then
      ({ p1 with query := [] }, hp.2, true)
    else (p1, hp.2, false)
  else (p, false, false)

/-- x.com block: rewrite the exact host `x.com` to `fixupx.com`. -/
def stepX (p : ParsedURL) : ParsedURL × Bool :=
  if p.host == "x.com" && !(p.host == "fixupx.com") then
    ({ p with host := "fixupx.com" }, true)
  else (p, false)

/-- Instagram block: collapse a `/user/profilecard/...` path to `/user`, and
rewrite reel/post paths to `d.ddinstagram.com`.
Returns `(url, pathCollapsed, hostRewritten)`. -/
def stepInsta (p : ParsedURL) : ParsedURL × Bool × Bool :=
  if strEndsWith p.host "instagram.com" then
    let segs := splitStr '/' p.path
    let cp :=
      if segs.length > 2 && (segs.getD 2 "" == "profilecard") then
        ({ p with path := "/" ++ segs.getD 1 "" }, true)
      else (p, false)
    let p1 := cp.1
    if strContainsSub p1.path "/reel/" || strContainsSub p1.path "/p/" then
      if p1.host == "d.ddinstagram.com" then (p1, cp.2, false)
      else ({ p1 with host := "d.ddinstagram.com" }, cp.2, true)
    else (p1, cp.2, false)
  else (p, false, false)

/-! ## Oracles for the external calls -/

/-- Result of `fetchTikTokPhotos` (and, at the aggregation level, of the whole
photo pipeline): the list of local cached paths, or an error message. -/
inductive FetchRes where
  | ok (paths : List String)
  | fail (msg : String)
deriving Repr, DecidableEq, BEq

/-- Result of `ExpandUrl` followed by `url.Parse` of the expanded string:
a network/HTTP failure, a parse failure of the expanded URL, or the parsed
expanded URL. -/
inductive ExpandRes where
  | netFail
  | parseFail
  | ok (u : ParsedURL)
deriving Repr, DecidableEq, BEq

/-! ## The per-word canonicalizer -/

/-- Which per-word rewrite events fired (used to accumulate `wasSanitized`). -/
structure WordEvents where
  expChanged : Bool := false
  paramDel : Bool := false
  hostRewrite : Bool := false
  queryDrop : Bool := false
  pathCollapse : Bool := false
deriving Repr, DecidableEq, BEq

def WordEvents.isAny (ev : WordEvents) : Bool :=
  ev.expChanged || ev.paramDel || ev.hostRewrite || ev.queryDrop || ev.pathCollapse

/-- Outcome of the post-expansion stage: the final parsed URL, whether
`processedWord` was assigned (so the serialized URL replaces the raw token), the
events that fired, and the photo-fetch call (if the photo branch was taken). -/
structure StageOut where
  url : ParsedURL
  assigned : Bool
  events : WordEvents
  photo : Option FetchRes
deriving Repr, DecidableEq, BEq

/-- The stage of `sanitizeURL` after TikTok expansion: the photo-album branch
(fetch photos, drop the whole query, skip all rules and rewrites) or the general
branch (parameter cleaning, then the TikTok / x.com / Instagram rewrites). -/
def processParsed (fetch : String → FetchRes) (p : ParsedURL) : StageOut :=
  if strEndsWith p.host "tiktok.com" && strContainsSub p.path "/photo/" then
    let r := fetch (serialize p)
    { url := { p with query := [] },
      assigned := true,
      events := { queryDrop := !p.query.isEmpty },
      photo := some r }
  else
    let pm := p.query.any (fun pr => shouldRemoveParam pr.1 p.host)
    let p1 := { p with query := stripParams p.host p.query }
    let t := stepTiktok p1
    let x := stepX t.1
    let i := stepInsta x.1
    { url := i.1,
      assigned := pm || t.2.1 || t.2.2 || x.2 || i.2.1 || i.2.2,
      events := { paramDel := pm, hostRewrite := t.2.1 || x.2 || i.2.2,
                  queryDrop := t.2.2, pathCollapse := i.2.1 },
      photo := none }

/-- The hosts for which `sanitizeURL` calls `ExpandUrl`. -/
def expandTrigger (p : ParsedURL) : Bool :=
  p.host == "vm.tiktok.com" || (p.host == "tiktok.com" && !strContainsSub p.path "/t/")

/-- The expansion step: on a trigger host, consult the oracle; a network failure
or a parse failure of the expanded URL keeps the original URL (non-fatal).
Returns `(workingURL, expansionChangedURL, processedWordAssigned)`. -/
def expandStep (e : String → ExpandRes) (p : ParsedURL) : ParsedURL × Bool × Bool :=
  if expandTrigger p then
    match e (serialize p) with
    | ExpandRes.netFail => (p, false, false)
    | ExpandRes.parseFail => (p, false, false)
    | ExpandRes.ok u => (u, !(serialize p == serialize u), true)
  else (p, false, false)

/-- `containsURL` of the source. -/
def containsURL (text : String) : Bool :=
  strStartsWith text "http://" || strStartsWith text "https://"

/-- Per-word result: the original word, the emitted token, whether it was
URL-shaped (and hence recorded in `originalURLs`), the rewrite events, and the
photo-fetch outcome if the photo branch ran. -/
structure WordRes where
  word : String
  out : String
  isURL : Bool
  events : WordEvents
  photo : Option FetchRes
deriving Repr, DecidableEq, BEq

/-- Assemble the per-word result from the post-expansion stage: `processedWord`
is the serialized final URL when any assignment happened, else the raw token. -/
def finishWord (fetch : String → FetchRes) (w : String) (p : ParsedURL)
    (expCh expAssigned : Bool) : WordRes :=
  let st := processParsed fetch p
  { word := w,
    out := if st.assigned || expAssigned then serialize st.url else w,
    isURL := true,
    events := { st.events with expChanged := expCh },
    photo := st.photo }

/-- The whole per-word pipeline of `sanitizeURL`: URL-shape check, parse (via the
`pf` oracle; a parse failure passes the token through verbatim), expansion, and
the post-expansion stage. -/
def processWord (e : String → ExpandRes) (fetch : String → FetchRes)
    (pf : String → Option ParsedURL) (w : String) : WordRes :=
  if containsURL w then
    match pf w with
    | none => { word := w, out := w, isURL := true, events := {}, photo := none }
    | some p =>
      let ex := expandStep e p
      finishWord fetch w ex.1 ex.2.1 ex.2.2
  else { word := w, out := w, isURL := false, events := {}, photo := none }

/-! ## The text-level sanitizer -/

/-- The accumulated side state of `sanitizeURL`: `wasSanitized`,
`isTikTokPhotoAlbum`, `downloadedPhotoPaths` and `originalURLs`. -/
structure TextState where
  changed : Bool
  flag : Bool
  paths : List String
  originals : List String
deriving Repr, DecidableEq, BEq

def initState : TextState :=
  { changed := false, flag := false, paths := [], originals := [] }

/-- Fold one word's result into the accumulated state, in source order:
record the raw token in `originalURLs` for every URL-shaped word, handle the
photo branch (`isTikTokPhotoAlbum` is set, then reset if the fetch failed, and
successful paths are appended), and accumulate `wasSanitized`. -/
def applyWord (st : TextState) (r : WordRes) : TextState :=
  let st1 := if r.isURL then { st with originals := st.originals ++ [r.word] } else st
  let st2 :=
    match r.photo with
    | some (FetchRes.ok ps) => { st1 with flag := true, paths := st1.paths ++ ps }
    | some (FetchRes.fail _) => { st1 with flag := false }
    | none => st1
  if r.events.isAny then { st2 with changed := true } else st2

/-- One word inside the paragraph loop: a space separates consecutive words. -/
def stepWordAcc (e : String → ExpandRes) (fetch : String → FetchRes)
    (pf : String → Option ParsedURL) (ac : TextState × String × Bool) (w : String) :
    TextState × String × Bool :=
  let r := processWord e fetch pf w
  let buf := if ac.2.2 then ac.2.1 ++ r.out else ac.2.1 ++ " " ++ r.out
  (applyWord ac.1 r, buf, false)

/-- One paragraph: a whitespace-only paragraph contributes nothing, otherwise the
paragraph's fields are processed word by word. -/
def runParagraph (e : String → ExpandRes) (fetch : String → FetchRes)
    (pf : String → Option ParsedURL) (st : TextState) (line : String) :
    TextState × String :=
  if isBlank line then (st, "")
  else
    let ac := (goFields line).foldl (stepWordAcc e fetch pf) (st, "", true)
    (ac.1, ac.2.1)

/-- One scanned line of the outer loop: a newline separates consecutive lines
(written before the line's content, blank lines included). -/
def stepLineAcc (e : String → ExpandRes) (fetch : String → FetchRes)
    (pf : String → Option ParsedURL) (ac : TextState × String × Bool) (line : String) :
    TextState × String × Bool :=
  let pre := if ac.2.2 then ac.2.1 else ac.2.1 ++ "\n"
  let rp := runParagraph e fetch pf ac.1 line
  (rp.1, pre ++ rp.2, false)

/-- The outcome record of `sanitizeURL`. -/
structure SanitizeOut where
  text : String
  changed : Bool
  isPhotoAlbum : Bool
  photoPaths : List String
  originalURLs : List String
deriving Repr, DecidableEq, BEq

/-- `sanitizeURL` of the source: scan lines, process each paragraph's words,
rebuild the text, then the final photo-album adjustment (a photo album with at
least one downloaded image counts as sanitized; otherwise the album flag is
cleared). -/
def sanitizeURL (e : String → ExpandRes) (fetch : String → FetchRes)
    (pf : String → Option ParsedURL) (text : String) : SanitizeOut :=
  let ac := (scanLines text).foldl (stepLineAcc e fetch pf) (initState, "", true)
  let st := ac.1
  let body := ac.2.1
  if st.flag && !st.paths.isEmpty then
    { text := body, changed := true, isPhotoAlbum := st.flag,
      photoPaths := st.paths, originalURLs := st.originals }
  else
    { text := body, changed := st.changed, isPhotoAlbum := false,
      photoPaths := st.paths, originalURLs := st.originals }

/-! ## Derived views used by the theorems -/

/-- Every word of the text, in encounter order. -/
def allWords (t : String) : List String :=
  ((scanLines t).map goFields).flatten

/-- Every word's result, in encounter order. -/
def allWordRes (e : String → ExpandRes) (fetch : String → FetchRes)
    (pf : String → Option ParsedURL) (t : String) : List WordRes :=
  (allWords t).map (processWord e fetch pf)

/-- The emitted text of one paragraph, as a pure function of the words. -/
def lineOut (e : String → ExpandRes) (fetch : String → FetchRes)
    (pf : String → Option ParsedURL) (line : String) : String :=
  if isBlank line then ""
  else " ".intercalate ((goFields line).map (fun w => (processWord e fetch pf w).out))

/-- The album flag as left by the word loop: the last photo-branch word decides. -/
def lastPhotoFlag (rs : List WordRes) : Bool :=
  match (rs.filterMap WordRes.photo).getLast? with
  | some (FetchRes.ok _) => true
  | some (FetchRes.fail _) => false
  | none => false

/-- All successfully fetched photo paths, in encounter order. -/
def collectPaths (rs : List WordRes) : List String :=
  (rs.filterMap (fun r =>
    match r.photo with
    | some (FetchRes.ok ps) => some ps
    | _ => none)).flatten

/-- The whitespace normal form the tokenizer/reassembler produces on URL-free
text: scanned lines re-joined by single newlines, each line's fields re-joined
by single spaces (whitespace-only lines becoming empty). -/
def normalizeText (t : String) : String :=
  "\n".intercalate ((scanLines t).map (fun l =>
    if isBlank l then "" else " ".intercalate (goFields l)))

/-- The final parsed URL the canonicalizer produces for one parsed input URL
(expansion step followed by the post-expansion stage). -/
def canonPU (e : String → ExpandRes) (fetch : String → FetchRes) (p : ParsedURL) :
    ParsedURL :=
  (processParsed fetch (expandStep e p).1).url

/-! ## The photo download pipeline (`fetchTikTokPhotos`)

The manifest's image URLs are downloaded concurrently; each goroutine writes its
outcome into `results[idx]` (the slot of its manifest index), the call waits for
all of them, then aggregates in index order.  Completion order is modelled as an
arbitrary list of indices `order` in which the slot writes happen; the download
outcome of an image URL is the oracle `dl`. -/

/-- Outcome of one `downloadImage` call: the local path, or an error.  The Go
zero value of the result struct (no error, empty path) is `ok ""`. -/
inductive DlRes where
  | ok (path : String)
  | fail (err : String)
deriving Repr, DecidableEq, BEq

def dlIsFail : DlRes → Bool
  | DlRes.fail _ => true
  | DlRes.ok _ => false

/-- The first download error in manifest-index order (`firstErr` of the source). -/
def firstDlError (results : List DlRes) : Option String :=
  results.findSome? (fun r =>
    match r with
    | DlRes.fail e => some e
    | DlRes.ok _ => none)

/-- The aggregation loop of `fetchTikTokPhotos`: keep the paths of results with
no error and a nonempty path, in slot order; if none, fail with the first
encountered download error (or a fallback message when no error was recorded). -/
def aggregateDownloads (results : List DlRes) : FetchRes :=
  let successfulPaths := results.filterMap (fun r =>
    match r with
    | DlRes.ok p => if p == "" then none else some p
    | DlRes.fail _ => none)
  if successfulPaths.isEmpty then
    match firstDlError results with
    | some e => FetchRes.fail ("all image downloads failed; first error: " ++ e)
    | none => FetchRes.fail "no images were successfully downloaded"
  else FetchRes.ok successfulPaths

/-- The concurrent slot writes: each index in `order` (the completion order)
stores its outcome into its own slot of the result slice. -/
def writeResults (outcome : Nat → DlRes) (order : List Nat) (init : List DlRes) :
    List DlRes :=
  order.foldl (fun acc i => acc.set i (outcome i)) init

/-- `fetchTikTokPhotos` from the slice initialization onward: a zero-valued
result slice of the manifest's length, the concurrent writes, and the
aggregation. -/
def fetchTikTokPhotos (images : List String) (dl : String → DlRes)
    (order : List Nat) : FetchRes :=
  let results := writeResults (fun i => dl (images.getD i ""))
    order (List.replicate images.length (DlRes.ok ""))
  aggregateDownloads results

/-- The successful local paths in manifest order, as a pure function of the
manifest and the download oracle. -/
def successPaths (images : List String) (dl : String → DlRes) : List String :=
  images.filterMap (fun u =>
    match dl u with
    | DlRes.ok p => if p == "" then none else some p
    | DlRes.fail _ => none)

/-- The number of failing downloads of the manifest. -/
def failCount (images : List String) (dl : String → DlRes) : Nat :=
  (images.filter (fun u => dlIsFail (dl u))).length

/-! # Theorems -/

/-! ## Facts about the string primitives -/

theorem listContainsSub_of_suffix {l sub : List Char} (h : sub <:+ l) :
    listContainsSub l sub = true := by
  induction l with
  | nil =>
    have : sub = [] := List.suffix_nil.mp h
    simp [this, listContainsSub]
  | cons c tl ih =>
    rcases List.suffix_cons_iff.mp h with h1 | h2
    · subst h1
      simp [listContainsSub, List.isPrefixOf_iff_prefix]
    · simp [listContainsSub, ih h2]

theorem listContainsSub_iff_infix {l sub : List Char} :
    listContainsSub l sub = true ↔ sub <:+: l := by
  induction l with
  | nil =>
    simp [listContainsSub, List.isEmpty_iff]
  | cons c tl ih =>
    simp [listContainsSub, List.infix_cons_iff, ih, List.isPrefixOf_iff_prefix]

theorem strContainsSub_of_strEndsWith {s t : String} (h : strEndsWith s t = true) :
    strContainsSub s t = true := by
  unfold strEndsWith at h
  rw [List.isPrefixOf_iff_prefix, List.reverse_prefix] at h
  exact listContainsSub_of_suffix h

theorem strEndsWith_trans_le {h a b : String} (ha : strEndsWith h a = true)
    (hb : strEndsWith h b = true) (hl : a.data.length ≤ b.data.length) :
    strEndsWith b a = true := by
  unfold strEndsWith at *
  rw [List.isPrefixOf_iff_prefix] at *
  exact List.prefix_of_prefix_length_le ha hb (by simpa using hl)

theorem not_insta_of_tiktok {h : String} (ht : strEndsWith h "tiktok.com" = true) :
    strEndsWith h "instagram.com" = false := by
  by_contra hc
  rw [Bool.not_eq_false] at hc
  have := strEndsWith_trans_le ht hc (by decide)
  exact absurd this (by decide)

/-! ## Facts about the rule matcher -/

theorem any_congr_aux {α : Type} (f g : α → Bool) :
    ∀ (L : List α), (∀ x ∈ L, f x = g x) → L.any f = L.any g := by
  intro L h
  induction L with
  | nil => rfl
  | cons x xs ih =>
    simp only [List.any_cons, h x (List.mem_cons_self x xs),
      ih (fun y hy => h y (List.mem_cons_of_mem x hy))]

theorem domainMatch_false_keys {h : String}
    (hk : ∀ dr ∈ DomainRules, strContainsSub h dr.1 = false) (k : String) :
    domainMatch k h = false := by
  unfold domainMatch
  rw [List.any_eq_false]
  intro dr hdr
  simp [hk dr hdr]

theorem shouldRemove_vmdstn (k : String) :
    shouldRemoveParam k "vm.dstn.to" = universalMatch k := by
  unfold shouldRemoveParam
  rw [domainMatch_false_keys (by decide) k, Bool.or_false]

theorem shouldRemove_fixupx (k : String) :
    shouldRemoveParam k "fixupx.com" = shouldRemoveParam k "x.com" := by
  have hk : ∀ dr ∈ DomainRules, strContainsSub "fixupx.com" dr.1 = strContainsSub "x.com" dr.1 := by
    decide
  unfold shouldRemoveParam domainMatch
  have := any_congr_aux
    (fun dr : String × List String => strContainsSub "fixupx.com" dr.1 && dr.2.any (fun rule => strStartsWith k rule))
    (fun dr : String × List String => strContainsSub "x.com" dr.1 && dr.2.any (fun rule => strStartsWith k rule))
    DomainRules (fun dr hdr => by simp only [hk dr hdr])
  rw [this]

theorem shouldRemove_dd (k : String)
    (h : shouldRemoveParam k "d.ddinstagram.com" = true) : universalMatch k = true := by
  unfold shouldRemoveParam at h
  rcases Bool.or_eq_true_iff.mp h with h1 | h2
  · exact h1
  · unfold domainMatch at h2
    rcases List.any_eq_true.mp h2 with ⟨dr, hdr, hm⟩
    rw [Bool.and_eq_true_iff] at hm
    rcases hm with ⟨hc, hs⟩
    fin_cases hdr <;> first
      | exact absurd hc (by decide)
      | · rcases List.any_eq_true.mp hs with ⟨rule, hrule, hst⟩
          fin_cases hrule
          exact List.any_eq_true.mpr ⟨"igshid", by decide, hst⟩

theorem universalMatch_removes {k h : String} (hu : universalMatch k = true) :
    shouldRemoveParam k h = true := by
  unfold shouldRemoveParam
  rw [hu, Bool.true_or]

/-! ## Facts about parameter stripping -/

theorem mem_insertSorted {x y : String} {l : List String} :
    x ∈ insertSorted y l ↔ x = y ∨ x ∈ l := by
  induction l with
  | nil => simp [insertSorted]
  | cons z zs ih =>
    unfold insertSorted
    split
    · simp [List.mem_cons]
    · simp only [List.mem_cons, ih]
      tauto

theorem mem_sortStrings {x : String} {l : List String} :
    x ∈ sortStrings l ↔ x ∈ l := by
  induction l with
  | nil => simp [sortStrings]
  | cons z zs ih =>
    unfold sortStrings
    rw [mem_insertSorted, ih, List.mem_cons]

theorem mem_encodeValues {pr : String × String} {q : List (String × String)} :
    pr ∈ encodeValues q ↔ pr ∈ q := by
  unfold encodeValues
  rw [List.mem_flatten]
  constructor
  · rintro ⟨grp, hg, hpr⟩
    rcases List.mem_map.mp hg with ⟨k, _, rfl⟩
    exact (List.mem_filter.mp hpr).1
  · intro hq
    refine ⟨q.filter (fun x => x.1 == pr.1), List.mem_map.mpr ⟨pr.1, ?_, rfl⟩, ?_⟩
    · rw [mem_sortStrings, List.mem_dedup]
      exact List.mem_map.mpr ⟨pr, hq, rfl⟩
    · exact List.mem_filter.mpr ⟨hq, by simp⟩

theorem mem_stripParams {h : String} {q : List (String × String)} {pr : String × String}
    (hm : pr ∈ stripParams h q) : pr ∈ q ∧ shouldRemoveParam pr.1 h = false := by
  unfold stripParams at hm
  split at hm
  · rw [mem_encodeValues] at hm
    have := List.mem_filter.mp hm
    exact ⟨this.1, by simpa using this.2⟩
  · rename_i hcond
    refine ⟨hm, ?_⟩
    rw [Bool.not_eq_true, List.any_eq_false] at hcond
    simpa using hcond pr hm

theorem stripParams_self {h : String} {q : List (String × String)}
    (hall : ∀ pr ∈ q, shouldRemoveParam pr.1 h = false) : stripParams h q = q := by
  unfold stripParams
  rw [if_neg]
  intro hc
  rw [List.any_eq_true] at hc
  rcases hc with ⟨pr, hpr, hrem⟩
  rw [hall pr hpr] at hrem
  cases hrem

/-- C1: For every query-parameter name and host, the claim says removal follows the
parsed `matchString@domainGlob` reading of the rule table; the code instead
prefix-matches parameter names against the *whole* rule strings and so never
consults the domain glob.  At parameter `qid` on host `amazon.com` the spec
matcher removes (rule `qid@amazon.*`) while the implemented matcher keeps. -/
theorem c1_rule_matcher_divergence :
    shouldRemoveParam "qid" "amazon.com" = false ∧
    specShouldRemove "qid" "amazon.com" = true := by
  constructor
  · decide
  · decide

/-! ## The photo download pipeline -/

theorem writeResults_cons (o : Nat → DlRes) (i : Nat) (rest : List Nat) (init : List DlRes) :
    writeResults o (i :: rest) init = writeResults o rest (init.set i (o i)) := by
  simp [writeResults]

theorem writeResults_length (o : Nat → DlRes) (order : List Nat) (init : List DlRes) :
    (writeResults o order init).length = init.length := by
  induction order generalizing init with
  | nil => rfl
  | cons i rest ih => rw [writeResults_cons, ih, List.length_set]

theorem writeResults_getElem? (o : Nat → DlRes) (order : List Nat) (init : List DlRes)
    (j : Nat) :
    (j ∈ order → j < init.length → (writeResults o order init)[j]? = some (o j)) ∧
    (j ∉ order → (writeResults o order init)[j]? = init[j]?) := by
  induction order generalizing init with
  | nil => simp [writeResults]
  | cons i rest ih =>
    rw [writeResults_cons]
    constructor
    · intro hj hlen
      rcases List.mem_cons.mp hj with rfl | hr
      · by_cases hjr : j ∈ rest
        · exact (ih _).1 hjr (by simpa using hlen)
        · rw [(ih _).2 hjr, List.getElem?_set]
          simp [hlen]
      · exact (ih _).1 hr (by simpa using hlen)
    · intro hj
      have hji : j ≠ i := fun e => hj (e ▸ List.mem_cons_self i rest)
      have hjr : j ∉ rest := fun hr => hj (List.mem_cons_of_mem i hr)
      rw [(ih _).2 hjr, List.getElem?_set, if_neg (fun e => hji e.symm)]

theorem writeResults_covered (images : List String) (dl : String → DlRes)
    (order : List Nat) (hcov : ∀ j, j < images.length → j ∈ order) :
    writeResults (fun i => dl (images.getD i "")) order
        (List.replicate images.length (DlRes.ok "")) = images.map dl := by
  apply List.ext_getElem?
  intro n
  by_cases hn : n < images.length
  · rw [(writeResults_getElem? _ order _ n).1 (hcov n hn) (by simpa using hn)]
    rw [List.getElem?_map, List.getElem?_eq_getElem hn]
    simp [List.getD, List.getElem?_eq_getElem hn]
  · have h1 : (writeResults (fun i => dl (images.getD i "")) order
        (List.replicate images.length (DlRes.ok ""))).length ≤ n := by
      rw [writeResults_length, List.length_replicate]
      omega
    rw [List.getElem?_eq_none h1, List.getElem?_eq_none (by simpa using Nat.le_of_not_lt hn)]

theorem failCount_cons (u : String) (rest : List String) (dl : String → DlRes) :
    failCount (u :: rest) dl =
      (if dlIsFail (dl u) = true then 1 else 0) + failCount rest dl := by
  unfold failCount
  rw [List.filter_cons]
  split
  · rw [List.length_cons]
    omega
  · omega

theorem failCount_le (images : List String) (dl : String → DlRes) :
    failCount images dl ≤ images.length := by
  unfold failCount
  exact List.length_filter_le _ _

theorem successPaths_cons (u : String) (rest : List String) (dl : String → DlRes) :
    successPaths (u :: rest) dl =
      (match dl u with
       | DlRes.ok p => if p == "" then [] else [p]
       | DlRes.fail _ => []) ++ successPaths rest dl := by
  unfold successPaths
  rw [List.filterMap_cons]
  cases dl u with
  | ok p =>
    cases hp : p == "" with
    | true => simp [hp]
    | false => simp [hp]
  | fail e => simp

theorem successPaths_length_add (images : List String) (dl : String → DlRes)
    (hne : ∀ u ∈ images, ∀ p, dl u = DlRes.ok p → p ≠ "") :
    (successPaths images dl).length + failCount images dl = images.length := by
  induction images with
  | nil => rfl
  | cons u rest ih =>
    have ihr := ih (fun v hv => hne v (List.mem_cons_of_mem u hv))
    rw [successPaths_cons, failCount_cons, List.length_append, List.length_cons]
    cases hdl : dl u with
    | fail e =>
      simp [hdl, dlIsFail]
      omega
    | ok p =>
      have hp : p ≠ "" := hne u (List.mem_cons_self u rest) p hdl
      have hpb : (p == "") = false := by
        rw [beq_eq_false_iff_ne]
        exact hp
      simp [hdl, dlIsFail, hpb]
      omega

theorem all_fail_of_failCount (images : List String) (dl : String → DlRes)
    (h : failCount images dl = images.length) : ∀ u ∈ images, dlIsFail (dl u) = true := by
  induction images with
  | nil => intro u hu; cases hu
  | cons u rest ih =>
    rw [failCount_cons, List.length_cons] at h
    cases hf : dlIsFail (dl u) with
    | true =>
      rw [hf, if_pos rfl] at h
      intro v hv
      rcases List.mem_cons.mp hv with rfl | hr
      · exact hf
      · exact ih (by omega) v hr
    | false =>
      rw [hf] at h
      simp only [Bool.false_eq_true, if_false] at h
      have hle := failCount_le rest dl
      omega

theorem successPaths_nil_of_all_fail (images : List String) (dl : String → DlRes)
    (h : ∀ u ∈ images, dlIsFail (dl u) = true) : successPaths images dl = [] := by
  induction images with
  | nil => rfl
  | cons u rest ih =>
    unfold successPaths at *
    rw [List.filterMap_cons]
    cases hdl : dl u with
    | fail e => exact ih (fun v hv => h v (List.mem_cons_of_mem u hv))
    | ok p =>
      have := h u (List.mem_cons_self u rest)
      rw [hdl] at this
      cases this

theorem aggregate_of_map (images : List String) (dl : String → DlRes) (order : List Nat)
    (hcov : ∀ j, j < images.length → j ∈ order) :
    fetchTikTokPhotos images dl order = aggregateDownloads (images.map dl) := by
  unfold fetchTikTokPhotos
  rw [writeResults_covered images dl order hcov]

theorem successfulPaths_map (images : List String) (dl : String → DlRes) :
    (images.map dl).filterMap (fun r =>
      match r with
      | DlRes.ok p => if p == "" then none else some p
      | DlRes.fail _ => none) = successPaths images dl := by
  rw [List.filterMap_map]
  rfl

/-- C2: For a manifest of `M` image URLs of which `k` downloads fail, and any
completion order of the concurrent downloads that covers every manifest index:
with `0 < k < M` the call succeeds and returns exactly the `M − k` successful
local paths in manifest order, and with `k = M` it fails carrying the first
(in manifest order) download error. -/
theorem c2_fetch_partial_failure (images : List String) (dl : String → DlRes)
    (order : List Nat)
    (hcov : ∀ j, j < images.length → j ∈ order)
    (hne : ∀ u ∈ images, ∀ p, dl u = DlRes.ok p → p ≠ "") :
    (0 < failCount images dl → failCount images dl < images.length →
      fetchTikTokPhotos images dl order = FetchRes.ok (successPaths images dl) ∧
      (successPaths images dl).length = images.length - failCount images dl) ∧
    (failCount images dl = images.length → 0 < images.length →
      ∃ e, firstDlError (images.map dl) = some e ∧
        fetchTikTokPhotos images dl order =
          FetchRes.fail ("all image downloads failed; first error: " ++ e)) := by
  have hlen := successPaths_length_add images dl hne
  constructor
  · intro _ hk
    have hpos : 0 < (successPaths images dl).length := by omega
    have hne2 : (successPaths images dl).isEmpty = false := by
      cases hsp : successPaths images dl with
      | nil => rw [hsp] at hpos; cases hpos
      | cons a l => rfl
    rw [aggregate_of_map images dl order hcov]
    unfold aggregateDownloads
    rw [successfulPaths_map]
    simp only [hne2, Bool.false_eq_true, if_false]
    exact ⟨trivial, by omega⟩
  · intro hall hM
    have haf := all_fail_of_failCount images dl hall
    have hsp := successPaths_nil_of_all_fail images dl haf
    cases images with
    | nil => cases hM
    | cons u rest =>
      cases hdl : dl u with
      | ok p =>
        have := haf u (List.mem_cons_self u rest)
        rw [hdl] at this
        cases this
      | fail e =>
        refine ⟨e, ?_, ?_⟩
        · unfold firstDlError
          rw [List.map_cons, List.findSome?_cons, hdl]
        · rw [aggregate_of_map _ dl order hcov]
          unfold aggregateDownloads
          rw [successfulPaths_map]
          simp only [hsp, List.isEmpty_nil, if_pos]
          unfold firstDlError
          rw [List.map_cons, List.findSome?_cons, hdl]

/-- Witness for C2 at a concrete three-image manifest whose middle download fails
and whose completion order is scrambled. -/
theorem c2_fetch_partial_failure_witness :
    fetchTikTokPhotos ["a.jpg", "b.jpg", "c.jpg"]
        (fun u => if u == "b.jpg" then DlRes.fail "boom" else DlRes.ok ("cache/" ++ u))
        [2, 0, 1] = FetchRes.ok ["cache/a.jpg", "cache/c.jpg"] := by
  have h := (c2_fetch_partial_failure ["a.jpg", "b.jpg", "c.jpg"]
    (fun u => if u == "b.jpg" then DlRes.fail "boom" else DlRes.ok ("cache/" ++ u))
    [2, 0, 1]
    (by intro j hj
        have h3 : j < 3 := by simpa using hj
        interval_cases j <;> decide)
    (by intro u hu p hp
        fin_cases hu <;> simp at hp <;> (subst hp; decide))).1 (by decide) (by decide)
  rw [h.1]
  rfl

/-! ## The photo-album branch of the canonicalizer -/

/-- C3: A parsed URL whose host ends with `tiktok.com` and whose path contains
`/photo/` takes the photo-album branch at the detection stage (after any
short-link expansion): the photo fetch is invoked, the emitted URL is the
query-stripped post URL with host and path untouched, no parameter rule and no
domain rewrite fires, and in particular the host is never rewritten to
`vm.dstn.to`.  The final conjunct carries this to the emitted token for words
whose parse does not trigger expansion. -/
theorem c3_photo_album_bypasses_rules (f : String → FetchRes) (p : ParsedURL)
    (h1 : strEndsWith p.host "tiktok.com" = true)
    (h2 : strContainsSub p.path "/photo/" = true) :
    processParsed f p =
      { url := { p with query := [] }, assigned := true,
        events := { queryDrop := !p.query.isEmpty }, photo := some (f (serialize p)) } ∧
    (processParsed f p).url.host = p.host ∧
    (processParsed f p).url.host ≠ "vm.dstn.to" ∧
    (∀ e pf w, containsURL w = true → pf w = some p → expandTrigger p = false →
      (processWord e f pf w).out = serialize { p with query := [] }) := by
  have hcond : (strEndsWith p.host "tiktok.com" && strContainsSub p.path "/photo/") = true := by
    rw [h1, h2]
    rfl
  have hmain : processParsed f p =
      { url := { p with query := [] }, assigned := true,
        events := { queryDrop := !p.query.isEmpty }, photo := some (f (serialize p)) } := by
    unfold processParsed
    rw [if_pos hcond]
  refine ⟨hmain, ?_, ?_, ?_⟩
  · rw [hmain]
  · rw [hmain]
    intro hvm
    rw [hvm] at h1
    exact absurd h1 (by decide)
  · intro e pf w hw hpf htr
    unfold processWord expandStep finishWord
    rw [if_pos hw, hpf]
    simp [htr, hmain]

/-- Witness for C3 at a concrete photo-post URL with a failing fetch oracle. -/
theorem c3_photo_album_bypasses_rules_witness :
    (processParsed (fun _ => FetchRes.fail "api down")
      (ParsedURL.mk "https" "www.tiktok.com" "/@user/photo/7" [("q", "1")])).url =
      ParsedURL.mk "https" "www.tiktok.com" "/@user/photo/7" [] := by
  rw [(c3_photo_album_bypasses_rules (fun _ => FetchRes.fail "api down")
    (ParsedURL.mk "https" "www.tiktok.com" "/@user/photo/7" [("q", "1")])
    (by decide) (by decide)).1]

/-! ## Builder-vs-map factorization of the text level -/

theorem intercalate_go_append (buf sep : String) :
    ∀ (acc : String) (l : List String),
      String.intercalate.go (buf ++ acc) sep l = buf ++ String.intercalate.go acc sep l
  | acc, [] => rfl
  | acc, a :: as => by
    show String.intercalate.go ((buf ++ acc) ++ sep ++ a) sep as
        = buf ++ String.intercalate.go (acc ++ sep ++ a) sep as
    rw [String.append_assoc buf acc sep, String.append_assoc buf (acc ++ sep) a]
    exact intercalate_go_append buf sep (acc ++ sep ++ a) as

theorem wordsFold_state (e : String → ExpandRes) (f : String → FetchRes)
    (pf : String → Option ParsedURL) :
    ∀ (ws : List String) (ac : TextState × String × Bool),
      (ws.foldl (stepWordAcc e f pf) ac).1 =
        (ws.map (processWord e f pf)).foldl applyWord ac.1
  | [], _ => rfl
  | w :: rest, ac => by
    rw [List.foldl_cons, List.map_cons, List.foldl_cons]
    exact wordsFold_state e f pf rest _

theorem wordsFold_text (e : String → ExpandRes) (f : String → FetchRes)
    (pf : String → Option ParsedURL) :
    ∀ (ws : List String) (st : TextState) (buf : String),
      (ws.foldl (stepWordAcc e f pf) (st, buf, false)).2.1 =
        String.intercalate.go buf " " (ws.map (fun w => (processWord e f pf w).out))
  | [], _, _ => rfl
  | w :: rest, st, buf => by
    rw [List.foldl_cons, List.map_cons]
    exact wordsFold_text e f pf rest _ _

theorem wordsFold_text_first (e : String → ExpandRes) (f : String → FetchRes)
    (pf : String → Option ParsedURL) (ws : List String) (st : TextState) (buf : String) :
    (ws.foldl (stepWordAcc e f pf) (st, buf, true)).2.1 =
      buf ++ " ".intercalate (ws.map (fun w => (processWord e f pf w).out)) := by
  cases ws with
  | nil =>
    show buf = buf ++ ""
    rw [String.append_empty]
  | cons w rest =>
    rw [List.foldl_cons, List.map_cons]
    show (rest.foldl (stepWordAcc e f pf) (_, buf ++ (processWord e f pf w).out, false)).2.1 = _
    rw [wordsFold_text e f pf rest _ _]
    show _ = buf ++ String.intercalate.go ((processWord e f pf w).out) " " _
    rw [← intercalate_go_append buf " "]

theorem splitSpaceList_ne_nil : ∀ (l : List Char), splitSpaceList l ≠ []
  | [] => by simp [splitSpaceList]
  | x :: xs => by
    unfold splitSpaceList
    cases h : splitSpaceList xs with
    | nil => exact absurd h (splitSpaceList_ne_nil xs)
    | cons a t => by_cases hx : goIsSpace x = true <;> simp [hx]

theorem splitSpaceList_all_empty :
    ∀ (l : List Char), l.all goIsSpace = true → ∀ part ∈ splitSpaceList l, part = []
  | [], _, part, hp => by
    simp only [splitSpaceList, List.mem_singleton] at hp
    exact hp
  | x :: xs, h, part, hp => by
    rw [List.all_cons, Bool.and_eq_true_iff] at h
    unfold splitSpaceList at hp
    cases hs : splitSpaceList xs with
    | nil => exact absurd hs (splitSpaceList_ne_nil xs)
    | cons a t =>
      rw [hs] at hp
      rw [h.1] at hp
      simp only [if_pos] at hp
      rcases List.mem_cons.mp hp with rfl | hp2
      · rfl
      · exact splitSpaceList_all_empty xs h.2 part (hs ▸ hp2)

theorem goFields_blank {line : String} (h : isBlank line = true) : goFields line = [] := by
  unfold goFields
  have hall := splitSpaceList_all_empty line.data h
  rw [List.filter_eq_nil_iff.mpr, List.map_nil]
  intro part hp
  rw [hall part hp]
  decide

theorem runParagraph_text (e : String → ExpandRes) (f : String → FetchRes)
    (pf : String → Option ParsedURL) (st : TextState) (line : String) :
    (runParagraph e f pf st line).2 = lineOut e f pf line := by
  unfold runParagraph lineOut
  split
  · rfl
  · show (((goFields line).foldl (stepWordAcc e f pf) (st, "", true)).2.1) = _
    rw [wordsFold_text_first, String.empty_append]

theorem runParagraph_state (e : String → ExpandRes) (f : String → FetchRes)
    (pf : String → Option ParsedURL) (st : TextState) (line : String) :
    (runParagraph e f pf st line).1 =
      ((goFields line).map (processWord e f pf)).foldl applyWord st := by
  unfold runParagraph
  split
  · rename_i hb
    rw [goFields_blank hb]
    rfl
  · show (((goFields line).foldl (stepWordAcc e f pf) (st, "", true)).1) = _
    rw [wordsFold_state]

theorem linesFold_state (e : String → ExpandRes) (f : String → FetchRes)
    (pf : String → Option ParsedURL) :
    ∀ (ls : List String) (ac : TextState × String × Bool),
      (ls.foldl (stepLineAcc e f pf) ac).1 =
        ((ls.map (fun l => (goFields l).map (processWord e f pf))).flatten).foldl
          applyWord ac.1
  | [], _ => rfl
  | l :: rest, ac => by
    rw [List.foldl_cons, List.map_cons, List.flatten_cons, List.foldl_append]
    rw [linesFold_state e f pf rest _]
    show _ = _
    rw [show (stepLineAcc e f pf ac l).1 = (runParagraph e f pf ac.1 l).1 from rfl,
      runParagraph_state]

theorem linesFold_text (e : String → ExpandRes) (f : String → FetchRes)
    (pf : String → Option ParsedURL) :
    ∀ (ls : List String) (st : TextState) (buf : String),
      (ls.foldl (stepLineAcc e f pf) (st, buf, false)).2.1 =
        String.intercalate.go buf "\n" (ls.map (lineOut e f pf))
  | [], _, _ => rfl
  | l :: rest, st, buf => by
    rw [List.foldl_cons, List.map_cons]
    show (rest.foldl (stepLineAcc e f pf)
      ((runParagraph e f pf st l).1, buf ++ "\n" ++ (runParagraph e f pf st l).2, false)).2.1 = _
    rw [linesFold_text e f pf rest _ _, runParagraph_text]
    rfl

theorem linesFold_text_first (e : String → ExpandRes) (f : String → FetchRes)
    (pf : String → Option ParsedURL) (ls : List String) (st : TextState) (buf : String) :
    (ls.foldl (stepLineAcc e f pf) (st, buf, true)).2.1 =
      buf ++ "\n".intercalate (ls.map (lineOut e f pf)) := by
  cases ls with
  | nil =>
    show buf = buf ++ ""
    rw [String.append_empty]
  | cons l rest =>
    rw [List.foldl_cons, List.map_cons]
    show (rest.foldl (stepLineAcc e f pf)
      ((runParagraph e f pf st l).1, buf ++ (runParagraph e f pf st l).2, false)).2.1 = _
    rw [linesFold_text e f pf rest _ _, runParagraph_text]
    show _ = buf ++ String.intercalate.go (lineOut e f pf l) "\n" _
    rw [← intercalate_go_append buf "\n"]

theorem sanitize_text_eq (e : String → ExpandRes) (f : String → FetchRes)
    (pf : String → Option ParsedURL) (t : String) :
    (sanitizeURL e f pf t).text =
      "\n".intercalate ((scanLines t).map (lineOut e f pf)) := by
  simp only [sanitizeURL]
  split
  · show ((scanLines t).foldl (stepLineAcc e f pf) (initState, "", true)).2.1 = _
    rw [linesFold_text_first, String.empty_append]
  · show ((scanLines t).foldl (stepLineAcc e f pf) (initState, "", true)).2.1 = _
    rw [linesFold_text_first, String.empty_append]

theorem allWordRes_eq (e : String → ExpandRes) (f : String → FetchRes)
    (pf : String → Option ParsedURL) (t : String) :
    allWordRes e f pf t =
      (((scanLines t).map (fun l => (goFields l).map (processWord e f pf)))).flatten := by
  unfold allWordRes allWords
  rw [List.map_flatten, List.map_map]
  rfl

theorem sanitize_final_state (e : String → ExpandRes) (f : String → FetchRes)
    (pf : String → Option ParsedURL) (t : String) :
    ((scanLines t).foldl (stepLineAcc e f pf) (initState, "", true)).1 =
      (allWordRes e f pf t).foldl applyWord initState := by
  rw [linesFold_state, allWordRes_eq]

theorem sanitize_fields (e : String → ExpandRes) (f : String → FetchRes)
    (pf : String → Option ParsedURL) (t : String) :
    (sanitizeURL e f pf t).changed =
      (((allWordRes e f pf t).foldl applyWord initState).changed ||
       (((allWordRes e f pf t).foldl applyWord initState).flag &&
        !((allWordRes e f pf t).foldl applyWord initState).paths.isEmpty)) ∧
    (sanitizeURL e f pf t).isPhotoAlbum =
      (((allWordRes e f pf t).foldl applyWord initState).flag &&
       !((allWordRes e f pf t).foldl applyWord initState).paths.isEmpty) ∧
    (sanitizeURL e f pf t).photoPaths =
      ((allWordRes e f pf t).foldl applyWord initState).paths ∧
    (sanitizeURL e f pf t).originalURLs =
      ((allWordRes e f pf t).foldl applyWord initState).originals := by
  simp only [sanitizeURL]
  rw [← sanitize_final_state e f pf t]
  split
  · rename_i hc
    refine ⟨?_, ?_, rfl, rfl⟩
    · show true = _
      rw [hc, Bool.or_true]
    · show (((scanLines t).foldl (stepLineAcc e f pf) (initState, "", true)).1).flag = _
      rw [hc]
      exact (Bool.and_eq_true_iff.mp hc).1
  · rename_i hc
    rw [Bool.not_eq_true] at hc
    refine ⟨?_, ?_, rfl, rfl⟩
    · show _ = _
      rw [hc, Bool.or_false]
    · show false = _
      rw [hc]

/-! ## State characterization of the word fold -/

theorem applyWord_fields (st : TextState) (r : WordRes) :
    (applyWord st r).changed = (st.changed || r.events.isAny) ∧
    (applyWord st r).originals = (st.originals ++ if r.isURL then [r.word] else []) ∧
    (applyWord st r).paths = (st.paths ++ (match r.photo with
      | some (FetchRes.ok ps) => ps
      | _ => [])) ∧
    (applyWord st r).flag = (match r.photo with
      | some (FetchRes.ok _) => true
      | some (FetchRes.fail _) => false
      | none => st.flag) := by
  unfold applyWord
  cases hph : r.photo with
  | none =>
    cases hu : r.isURL <;> by_cases h : r.events.isAny = true <;> simp [hu, h, hph]
  | some fr =>
    cases fr <;> cases hu : r.isURL <;> by_cases h : r.events.isAny = true <;>
      simp [hu, h, hph]

theorem foldWords_changed : ∀ (rs : List WordRes) (st : TextState),
    (rs.foldl applyWord st).changed = (st.changed || rs.any (fun r => r.events.isAny))
  | [], st => by simp
  | r :: rest, st => by
    rw [List.foldl_cons, foldWords_changed rest _, (applyWord_fields st r).1,
      List.any_cons, Bool.or_assoc]

theorem foldWords_originals : ∀ (rs : List WordRes) (st : TextState),
    (rs.foldl applyWord st).originals =
      st.originals ++ (rs.filter (fun r => r.isURL)).map (fun r => r.word)
  | [], st => by simp
  | r :: rest, st => by
    rw [List.foldl_cons, foldWords_originals rest _, (applyWord_fields st r).2.1,
      List.filter_cons]
    cases hu : r.isURL <;> simp [List.append_assoc]

theorem collectPaths_cons (r : WordRes) (rest : List WordRes) :
    collectPaths (r :: rest) = (match r.photo with
      | some (FetchRes.ok ps) => ps
      | _ => []) ++ collectPaths rest := by
  unfold collectPaths
  rw [List.filterMap_cons]
  cases hph : r.photo with
  | none => simp
  | some fr => cases fr <;> simp

theorem foldWords_paths : ∀ (rs : List WordRes) (st : TextState),
    (rs.foldl applyWord st).paths = st.paths ++ collectPaths rs
  | [], st => by simp [collectPaths]
  | r :: rest, st => by
    rw [List.foldl_cons, foldWords_paths rest _, (applyWord_fields st r).2.2.1,
      collectPaths_cons, List.append_assoc]

theorem foldWords_flag : ∀ (rs : List WordRes) (st : TextState),
    (rs.foldl applyWord st).flag =
      (match (rs.filterMap (fun r => r.photo)).getLast? with
       | some (FetchRes.ok _) => true
       | some (FetchRes.fail _) => false
       | none => st.flag)
  | [], st => by simp
  | r :: rest, st => by
    rw [List.foldl_cons, foldWords_flag rest _, List.filterMap_cons]
    cases hph : r.photo with
    | none =>
      rw [(applyWord_fields st r).2.2.2, hph]
    | some fr =>
      rw [(applyWord_fields st r).2.2.2, hph]
      cases hl : rest.filterMap (fun r => r.photo) with
      | nil => cases fr <;> rfl
      | cons b l =>
        rw [List.getLast?_cons_cons]
        cases hg : (b :: l).getLast? with
        | none => exact absurd (List.getLast?_eq_none_iff.mp hg) (by simp)
        | some v => cases v <;> rfl

/-! ## Small facts about the per-word pipeline -/

theorem processWord_word (e : String → ExpandRes) (f : String → FetchRes)
    (pf : String → Option ParsedURL) (w : String) : (processWord e f pf w).word = w := by
  unfold processWord
  by_cases h : containsURL w = true
  · cases hp : pf w <;> simp [h, hp, finishWord]
  · simp [h]

theorem processWord_isURL (e : String → ExpandRes) (f : String → FetchRes)
    (pf : String → Option ParsedURL) (w : String) :
    (processWord e f pf w).isURL = containsURL w := by
  unfold processWord
  by_cases h : containsURL w = true
  · cases hp : pf w <;> simp [h, hp, finishWord]
  · have h' : containsURL w = false := by
      cases hc : containsURL w
      · rfl
      · exact absurd hc h
    simp [h']

theorem processWord_parsefail (e : String → ExpandRes) (f : String → FetchRes)
    (pf : String → Option ParsedURL) (w : String) (hw : containsURL w = true)
    (hp : pf w = none) : (processWord e f pf w).out = w := by
  simp [processWord, hw, hp]

/-- The photo-album branch of the post-expansion stage, as one equation. -/
theorem processParsed_photo (f : String → FetchRes) (p : ParsedURL)
    (h1 : strEndsWith p.host "tiktok.com" = true)
    (h2 : strContainsSub p.path "/photo/" = true) :
    processParsed f p =
      { url := { p with query := [] }, assigned := true,
        events := { queryDrop := !p.query.isEmpty }, photo := some (f (serialize p)) } := by
  unfold processParsed
  rw [if_pos (by rw [h1, h2]; rfl)]

/-! ## C4: expansion failures are recoverable and token-local -/

/-- C4: When the short-link expansion probe fails (network failure / non-success
status, or a parse failure of the expanded URL), the token is processed exactly
as with no expansion at all — using the original, unexpanded URL — and the
output text always factors into independent per-line, per-token contributions,
so a failure at one token never aborts the remaining tokens or paragraphs. -/
theorem c4_expansion_failure_recoverable (e : String → ExpandRes) (f : String → FetchRes)
    (pf : String → Option ParsedURL) :
    (∀ w p, containsURL w = true → pf w = some p →
      e (serialize p) = ExpandRes.netFail ∨ e (serialize p) = ExpandRes.parseFail →
      processWord e f pf w = finishWord f w p false false) ∧
    (∀ t, (sanitizeURL e f pf t).text =
      "\n".intercalate ((scanLines t).map (lineOut e f pf))) := by
  constructor
  · intro w p hw hp hfail
    have hex : expandStep e p = (p, false, false) := by
      unfold expandStep
      by_cases ht : expandTrigger p = true
      · rw [if_pos ht]
        rcases hfail with h | h <;> rw [h]
      · rw [if_neg ht]
    unfold processWord
    rw [if_pos hw, hp]
    show (let ex := expandStep e p; finishWord f w ex.1 ex.2.1 ex.2.2) = _
    rw [hex]
  · intro t
    exact sanitize_text_eq e f pf t

/-- Witness for C4: a concrete short TikTok link with a failing expansion probe
is still cleaned from its original parsed URL. -/
theorem c4_expansion_failure_recoverable_witness :
    processWord (fun _ => ExpandRes.netFail) (fun _ => FetchRes.fail "off")
      (fun s => if s == "https://vm.tiktok.com/x?utm_source=1"
        then some (ParsedURL.mk "https" "vm.tiktok.com" "/x" [("utm_source", "1")])
        else none)
      "https://vm.tiktok.com/x?utm_source=1" =
    finishWord (fun _ => FetchRes.fail "off") "https://vm.tiktok.com/x?utm_source=1"
      (ParsedURL.mk "https" "vm.tiktok.com" "/x" [("utm_source", "1")]) false false :=
  (c4_expansion_failure_recoverable _ _ _).1 _ _ (by decide) (by decide) (Or.inl rfl)

/-! ## C9: malformed URL-shaped tokens -/

/-- C9 counterexample: the token `http://%zz` (a word that fails URL parsing) is
emitted verbatim, but — contrary to the claim — it *is* appended to
`originalURLs`: the source appends every URL-shaped word before attempting to
parse it. -/
theorem c9_counterexample :
    (sanitizeURL (fun _ => ExpandRes.netFail) (fun _ => FetchRes.fail "e")
      (fun _ => none) "http://%zz").originalURLs = ["http://%zz"] ∧
    (sanitizeURL (fun _ => ExpandRes.netFail) (fun _ => FetchRes.fail "e")
      (fun _ => none) "http://%zz").text = "http://%zz" := by
  constructor
  · rfl
  · rfl

/-- C9 amended: a URL-shaped token that fails parsing is emitted verbatim (parse
failure is not an error), and `originalURLs` records *every* URL-shaped word in
encounter order — the append happens before the parse attempt, so malformed
tokens are included. -/
theorem c9_malformed_verbatim_and_recorded (e : String → ExpandRes)
    (f : String → FetchRes) (pf : String → Option ParsedURL) :
    (∀ t, (sanitizeURL e f pf t).originalURLs = (allWords t).filter containsURL) ∧
    (∀ w, containsURL w = true → pf w = none → (processWord e f pf w).out = w) := by
  constructor
  · intro t
    rw [(sanitize_fields e f pf t).2.2.2, foldWords_originals]
    show [] ++ _ = _
    rw [List.nil_append]
    unfold allWordRes
    rw [List.filter_map, List.map_map]
    have h1 : List.filter ((fun r : WordRes => r.isURL) ∘ (processWord e f pf)) (allWords t)
        = List.filter containsURL (allWords t) :=
      List.filter_congr (fun w _ => processWord_isURL e f pf w)
    rw [h1]
    have h2 : List.map ((fun r : WordRes => r.word) ∘ (processWord e f pf))
        ((allWords t).filter containsURL) =
        List.map (fun w => w) ((allWords t).filter containsURL) :=
      List.map_congr_left (fun w _ => processWord_word e f pf w)
    rw [h2, List.map_id']
  · intro w hw hp
    exact processWord_parsefail e f pf w hw hp

/-- Witness for C9's amended claim at a concrete malformed token. -/
theorem c9_malformed_verbatim_and_recorded_witness :
    (processWord (fun _ => ExpandRes.netFail) (fun _ => FetchRes.fail "e")
      (fun _ => none) "http://[bad").out = "http://[bad" :=
  (c9_malformed_verbatim_and_recorded _ _ _).2 _ (by decide) rfl

/-! ## C5: characterization of the changed flag -/

/-- C5 counterexample: a `vm.tiktok.com` token whose expansion resolves to a
plain URL with nothing to clean.  The returned `changed` flag is true although
no parameter-removal rule fired, no host rewrite / query drop / path collapse
happened, and no photo-album resolution took place — the flag was set by the
short-link expansion itself, an event the claim's list omits. -/
theorem c5_counterexample :
    (sanitizeURL
      (fun s => if s == "https://vm.tiktok.com/abc"
        then ExpandRes.ok (ParsedURL.mk "https" "example.com" "/x" []) else ExpandRes.netFail)
      (fun _ => FetchRes.fail "e")
      (fun s => if s == "https://vm.tiktok.com/abc"
        then some (ParsedURL.mk "https" "vm.tiktok.com" "/abc" []) else none)
      "https://vm.tiktok.com/abc").changed = true ∧
    (allWordRes
      (fun s => if s == "https://vm.tiktok.com/abc"
        then ExpandRes.ok (ParsedURL.mk "https" "example.com" "/x" []) else ExpandRes.netFail)
      (fun _ => FetchRes.fail "e")
      (fun s => if s == "https://vm.tiktok.com/abc"
        then some (ParsedURL.mk "https" "vm.tiktok.com" "/abc" []) else none)
      "https://vm.tiktok.com/abc").all
      (fun r => !(r.events.paramDel || r.events.hostRewrite || r.events.queryDrop ||
        r.events.pathCollapse) && r.photo.isNone) = true := by
  constructor
  · rfl
  · rfl

/-- C5 amended: `changed` is true iff some token fired a parameter-removal rule,
a host rewrite, a query drop, a path collapse, *or a short-link expansion that
altered the URL string*, or the most recently encountered photo-album token's
media resolution succeeded and at least one image path was collected (a later
photo-album token whose resolution fails resets the album flag, so an earlier
success alone does not count). -/
theorem c5_changed_iff (e : String → ExpandRes) (f : String → FetchRes)
    (pf : String → Option ParsedURL) (t : String) :
    (sanitizeURL e f pf t).changed = true ↔
      ((allWordRes e f pf t).any (fun r => r.events.isAny) = true ∨
       (lastPhotoFlag (allWordRes e f pf t) = true ∧
        collectPaths (allWordRes e f pf t) ≠ [])) := by
  have hc := (sanitize_fields e f pf t).1
  rw [hc, foldWords_changed, foldWords_flag, foldWords_paths]
  rw [show initState.changed = false from rfl, show initState.paths = [] from rfl,
    show initState.flag = false from rfl]
  rw [Bool.false_or, List.nil_append]
  have hflag :
      (match ((allWordRes e f pf t).filterMap (fun r => r.photo)).getLast? with
        | some (FetchRes.ok _) => true
        | some (FetchRes.fail _) => false
        | none => false) = lastPhotoFlag (allWordRes e f pf t) := by
    unfold lastPhotoFlag
    cases hg : ((allWordRes e f pf t).filterMap (fun r => r.photo)).getLast? with
    | none => rfl
    | some v => cases v <;> rfl
  rw [hflag]
  rw [Bool.or_eq_true_iff, Bool.and_eq_true_iff]
  constructor
  · rintro (h | ⟨h1, h2⟩)
    · exact Or.inl h
    · refine Or.inr ⟨h1, ?_⟩
      simpa using h2
  · rintro (h | ⟨h1, h2⟩)
    · exact Or.inl h
    · refine Or.inr ⟨h1, ?_⟩
      simpa using h2

/-! ## C7: structure preservation for URL-free text -/

/-- C7 counterexample: the URL-free text `"a  b"` (two spaces) is returned as
`"a b"` — the tokenizer re-joins fields with single spaces, so the output is
not byte-identical to the input. -/
theorem c7_counterexample :
    ((scanLines "a  b").all (fun l => (goFields l).all (fun w => !containsURL w)) = true) ∧
    (sanitizeURL (fun _ => ExpandRes.netFail) (fun _ => FetchRes.fail "e")
      (fun _ => none) "a  b").text = "a b" ∧
    ("a b" : String) ≠ "a  b" := by
  refine ⟨by decide, by rfl, by decide⟩

/-- C7 amended: for text without URL-shaped words the output is the whitespace
normal form of the input — scanned lines re-joined by single newlines, each
line's fields re-joined by single spaces, whitespace-only lines becoming empty
(and a trailing newline dropped by the line scanner).  The output is
byte-identical exactly when the input is already in this normal form. -/
theorem c7_no_url_normalizes (e : String → ExpandRes) (f : String → FetchRes)
    (pf : String → Option ParsedURL) (t : String)
    (h : ∀ l ∈ scanLines t, ∀ w ∈ goFields l, containsURL w = false) :
    (sanitizeURL e f pf t).text = normalizeText t := by
  rw [sanitize_text_eq]
  unfold normalizeText
  congr 1
  apply List.map_congr_left
  intro l hl
  unfold lineOut
  split
  · rfl
  · congr 1
    rw [List.map_congr_left (fun w hw => by
      show (processWord e f pf w).out = w
      simp [processWord, h l hl w hw])]
    exact List.map_id' _

/-- Witness for C7's amended claim at a concrete URL-free text. -/
theorem c7_no_url_normalizes_witness :
    (sanitizeURL (fun _ => ExpandRes.netFail) (fun _ => FetchRes.fail "e")
      (fun _ => none) "hello  world\n\nbye ").text =
      normalizeText "hello  world\n\nbye " :=
  c7_no_url_normalizes _ _ _ _ (by decide)

/-! ## C10: the album flag is sound -/

/-- C10: The sanitizer returns `isPhotoAlbum = true` only when the returned list
of cached image paths is non-empty; a photo-album token whose media resolution
fails still emits the query-stripped photo URL (with the failure recorded), and
any other sanitization event still sets the `changed` flag. -/
theorem c10_album_flag_sound (e : String → ExpandRes) (f : String → FetchRes)
    (pf : String → Option ParsedURL) :
    (∀ t, (sanitizeURL e f pf t).isPhotoAlbum = true →
      (sanitizeURL e f pf t).photoPaths ≠ []) ∧
    (∀ p err, strEndsWith p.host "tiktok.com" = true →
      strContainsSub p.path "/photo/" = true →
      f (serialize p) = FetchRes.fail err →
      (processParsed f p).url = { p with query := [] } ∧
      (processParsed f p).photo = some (FetchRes.fail err)) ∧
    (∀ t, (allWordRes e f pf t).any (fun r => r.events.isAny) = true →
      (sanitizeURL e f pf t).changed = true) := by
  refine ⟨?_, ?_, ?_⟩
  · intro t halbum
    have hfields := sanitize_fields e f pf t
    rw [hfields.2.1] at halbum
    rw [hfields.2.2.1]
    have := (Bool.and_eq_true_iff.mp halbum).2
    simpa using this
  · intro p err h1 h2 hf
    rw [processParsed_photo f p h1 h2, hf]
    exact ⟨rfl, rfl⟩
  · intro t hany
    rw [(sanitize_fields e f pf t).1, foldWords_changed,
      show initState.changed = false from rfl, Bool.false_or, hany, Bool.true_or]

/-- Witness for C10: a single photo-album token with a failing fetch yields
`isPhotoAlbum = false` but the second conjunct shows the stripped URL and the
recorded failure. -/
theorem c10_album_flag_sound_witness :
    (processParsed (fun _ => FetchRes.fail "api down")
      (ParsedURL.mk "https" "www.tiktok.com" "/@u/photo/9" [("x", "1")])).url =
      ParsedURL.mk "https" "www.tiktok.com" "/@u/photo/9" [] ∧
    (processParsed (fun _ => FetchRes.fail "api down")
      (ParsedURL.mk "https" "www.tiktok.com" "/@u/photo/9" [("x", "1")])).photo =
      some (FetchRes.fail "api down") :=
  (c10_album_flag_sound (fun _ => ExpandRes.netFail) (fun _ => FetchRes.fail "api down")
    (fun _ => none)).2.1 _ "api down" (by decide) (by decide) rfl

/-! ## C6: what survives parameter stripping, and in what order -/

theorem lexLe_refl : ∀ (l : List Char), lexLe l l = true
  | [] => rfl
  | a :: as => by
    unfold lexLe
    rw [if_pos (beq_self_eq_true a.toNat)]
    exact lexLe_refl as

theorem lexLe_total : ∀ (l1 l2 : List Char), lexLe l1 l2 = false → lexLe l2 l1 = true
  | [], l2, h => by simp [lexLe] at h
  | a :: as, [], _ => rfl
  | a :: as, b :: bs, h => by
    unfold lexLe at h ⊢
    by_cases heq : (a.toNat == b.toNat) = true
    · rw [if_pos heq] at h
      have hab : a.toNat = b.toNat := by simpa using heq
      rw [if_pos (by simpa using hab.symm)]
      exact lexLe_total as bs h
    · rw [if_neg heq] at h
      have hab : a.toNat ≠ b.toNat := by simpa using heq
      have hlt : ¬ a.toNat < b.toNat := by simpa using h
      rw [if_neg (show ¬ (b.toNat == a.toNat) = true from by
        intro hh
        have hba : b.toNat = a.toNat := by simpa using hh
        exact hab hba.symm)]
      simp only [decide_eq_true_eq]
      omega

theorem lexLe_trans : ∀ (l1 l2 l3 : List Char),
    lexLe l1 l2 = true → lexLe l2 l3 = true → lexLe l1 l3 = true
  | [], _, _, _, _ => rfl
  | a :: as, [], _, h1, _ => by simp [lexLe] at h1
  | _ :: _, _ :: _, [], _, h2 => by simp [lexLe] at h2
  | a :: as, b :: bs, c :: cs, h1, h2 => by
    unfold lexLe at h1 h2 ⊢
    by_cases e1 : (a.toNat == b.toNat) = true <;> by_cases e2 : (b.toNat == c.toNat) = true
    · rw [if_pos e1] at h1
      rw [if_pos e2] at h2
      have hab : a.toNat = b.toNat := by simpa using e1
      have hbc : b.toNat = c.toNat := by simpa using e2
      rw [if_pos (by simp [hab, hbc])]
      exact lexLe_trans as bs cs h1 h2
    · rw [if_pos e1] at h1
      rw [if_neg e2] at h2
      have hab : a.toNat = b.toNat := by simpa using e1
      have hbc : b.toNat < c.toNat := by simpa using h2
      rw [if_neg (show ¬ (a.toNat == c.toNat) = true from by
        intro hh
        have : a.toNat = c.toNat := by simpa using hh
        omega)]
      simp only [decide_eq_true_eq]
      omega
    · rw [if_neg e1] at h1
      rw [if_pos e2] at h2
      have hab : a.toNat < b.toNat := by simpa using h1
      have hbc : b.toNat = c.toNat := by simpa using e2
      rw [if_neg (show ¬ (a.toNat == c.toNat) = true from by
        intro hh
        have : a.toNat = c.toNat := by simpa using hh
        omega)]
      simp only [decide_eq_true_eq]
      omega
    · rw [if_neg e1] at h1
      rw [if_neg e2] at h2
      have hab : a.toNat < b.toNat := by simpa using h1
      have hbc : b.toNat < c.toNat := by simpa using h2
      rw [if_neg (show ¬ (a.toNat == c.toNat) = true from by
        intro hh
        have : a.toNat = c.toNat := by simpa using hh
        omega)]
      simp only [decide_eq_true_eq]
      omega

theorem strLe_refl (a : String) : strLe a a = true := lexLe_refl a.data

theorem strLe_total {a b : String} (h : strLe a b = false) : strLe b a = true :=
  lexLe_total a.data b.data h

theorem strLe_trans {a b c : String} (h1 : strLe a b = true) (h2 : strLe b c = true) :
    strLe a c = true :=
  lexLe_trans a.data b.data c.data h1 h2

theorem pairwise_insertSorted (x : String) (l : List String)
    (h : l.Pairwise (fun a b => strLe a b = true)) :
    (insertSorted x l).Pairwise (fun a b => strLe a b = true) := by
  induction l with
  | nil =>
    unfold insertSorted
    simp
  | cons y ys ih =>
    rw [List.pairwise_cons] at h
    unfold insertSorted
    by_cases hxy : strLe x y = true
    · rw [if_pos hxy, List.pairwise_cons]
      refine ⟨?_, List.pairwise_cons.mpr h⟩
      intro z hz
      rcases List.mem_cons.mp hz with rfl | hz2
      · exact hxy
      · exact strLe_trans hxy (h.1 z hz2)
    · rw [if_neg hxy, List.pairwise_cons]
      refine ⟨?_, ih h.2⟩
      intro z hz
      rw [mem_insertSorted] at hz
      rcases hz with hz1 | hz2
      · rw [hz1]
        have hxy' : strLe x y = false := by
          cases hv : strLe x y
          · rfl
          · exact absurd hv hxy
        exact strLe_total hxy'
      · exact h.1 z hz2

theorem pairwise_sortStrings : ∀ (l : List String),
    (sortStrings l).Pairwise (fun a b => strLe a b = true)
  | [] => List.Pairwise.nil
  | x :: xs => pairwise_insertSorted x (sortStrings xs) (pairwise_sortStrings xs)

theorem pairwise_encodeValues (q : List (String × String)) :
    (encodeValues q).Pairwise (fun a b : String × String => strLe a.1 b.1 = true) := by
  unfold encodeValues
  rw [List.pairwise_flatten]
  constructor
  · intro grp hg
    rcases List.mem_map.mp hg with ⟨k, _, rfl⟩
    apply List.pairwise_of_forall_mem_list
    intro a ha b hb
    have ha2 : a.1 = k := eq_of_beq (List.mem_filter.mp ha).2
    have hb2 : b.1 = k := eq_of_beq (List.mem_filter.mp hb).2
    rw [ha2, hb2]
    exact strLe_refl k
  · rw [List.pairwise_map]
    apply (pairwise_sortStrings _).imp
    intro k1 k2 hk x hx y hy
    have hx2 : x.1 = k1 := eq_of_beq (List.mem_filter.mp hx).2
    have hy2 : y.1 = k2 := eq_of_beq (List.mem_filter.mp hy).2
    rw [hx2, hy2]
    exact hk

/-- C6 counterexample: on `https://example.com/?b=2&a=1&utm_source=x` the
stripping deletes `utm_source` and re-encodes the survivors as `a=1&b=2` —
the input's relative order (`b` before `a`) is not preserved. -/
theorem c6_counterexample :
    (processParsed (fun _ => FetchRes.fail "e")
      (ParsedURL.mk "https" "example.com" "/" [("b", "2"), ("a", "1"), ("utm_source", "x")])).url.query
      = [("a", "1"), ("b", "2")] ∧
    ((ParsedURL.mk "https" "example.com" "/"
        [("b", "2"), ("a", "1"), ("utm_source", "x")]).query.filter
      (fun pr => !shouldRemoveParam pr.1 "example.com")) = [("b", "2"), ("a", "1")] ∧
    (processParsed (fun _ => FetchRes.fail "e")
      (ParsedURL.mk "https" "example.com" "/" [("b", "2"), ("a", "1"), ("utm_source", "x")])).url.query
      ≠ [("b", "2"), ("a", "1")] := by
  refine ⟨by decide, by decide, by decide⟩

/-- C6 amended: parameter stripping deletes exactly the matched parameters — a
name–value pair survives iff its name matches no applicable rule — but when a
deletion occurs the survivors are re-encoded grouped by name in ascending
byte-lexicographic name order (values of one name keeping their original
order), so the input's relative order of survivors is generally not preserved;
when nothing is deleted the query is left unchanged. -/
theorem c6_strip_only_matched_sorted (hst : String) (q : List (String × String)) :
    (∀ pr, pr ∈ stripParams hst q ↔ (pr ∈ q ∧ shouldRemoveParam pr.1 hst = false)) ∧
    ((∃ pr ∈ q, shouldRemoveParam pr.1 hst = true) →
      (stripParams hst q).Pairwise (fun a b : String × String => strLe a.1 b.1 = true)) ∧
    ((∀ pr ∈ q, shouldRemoveParam pr.1 hst = false) → stripParams hst q = q) := by
  refine ⟨?_, ?_, stripParams_self⟩
  · intro pr
    constructor
    · exact mem_stripParams
    · rintro ⟨hq, hkeep⟩
      unfold stripParams
      split
      · rw [mem_encodeValues]
        exact List.mem_filter.mpr ⟨hq, by simp [hkeep]⟩
      · exact hq
  · rintro ⟨pr, hpr, hrem⟩
    unfold stripParams
    rw [if_pos (List.any_eq_true.mpr ⟨pr, hpr, hrem⟩)]
    exact pairwise_encodeValues _

/-- Witness for C6's amended claim at the counterexample query: the survivors of
the concrete query are sorted by name. -/
theorem c6_strip_only_matched_sorted_witness :
    (stripParams "example.com" [("b", "2"), ("a", "1"), ("utm_source", "x")]).Pairwise
      (fun a b : String × String => strLe a.1 b.1 = true) :=
  (c6_strip_only_matched_sorted "example.com"
    [("b", "2"), ("a", "1"), ("utm_source", "x")]).2.1
    ⟨("utm_source", "x"), by decide, by decide⟩

/-! ## C8: idempotence machinery

Facts about the character-split function, host classification and the three
rewrite steps, leading to idempotence of the post-expansion stage. -/

theorem splitCharList_ne_nil (c : Char) : ∀ (l : List Char), splitCharList c l ≠ []
  | [] => by simp [splitCharList]
  | x :: xs => by
    unfold splitCharList
    cases h : splitCharList c xs with
    | nil => simp
    | cons a t => by_cases hx : (x == c) = true <;> simp [hx]

theorem splitCharList_no_sep (c : Char) :
    ∀ (l : List Char), ∀ part ∈ splitCharList c l, c ∉ part
  | [], part, hp => by
    simp only [splitCharList, List.mem_singleton] at hp
    simp [hp]
  | x :: xs, part, hp => by
    cases h : splitCharList c xs with
    | nil => exact absurd h (splitCharList_ne_nil c xs)
    | cons a t =>
      have heq : splitCharList c (x :: xs) =
          if (x == c) = true then [] :: a :: t else (x :: a) :: t := by
        unfold splitCharList
        rw [h]
      rw [heq] at hp
      by_cases hx : (x == c) = true
      · rw [if_pos hx] at hp
        rcases List.mem_cons.mp hp with rfl | hp2
        · simp
        · exact splitCharList_no_sep c xs part (h ▸ hp2)
      · rw [if_neg hx] at hp
        rcases List.mem_cons.mp hp with rfl | hp2
        · intro hmem
          rcases List.mem_cons.mp hmem with hceq | hc2
          · exact hx (by simp [hceq])
          · exact splitCharList_no_sep c xs a (h ▸ List.mem_cons_self a t) hc2
        · exact splitCharList_no_sep c xs part
            (h ▸ List.mem_cons_of_mem a hp2)

theorem splitCharList_of_no_sep (c : Char) :
    ∀ (l : List Char), c ∉ l → splitCharList c l = [l]
  | [], _ => rfl
  | x :: xs, h => by
    have hx : (x == c) = false := by
      cases hb : x == c
      · rfl
      · exact absurd (by simp [eq_of_beq hb]) h
    unfold splitCharList
    rw [splitCharList_of_no_sep c xs (fun hc => h (List.mem_cons_of_mem x hc))]
    rw [hx]
    simp

theorem mem_splitStr_no_sep (c : Char) (s : String) :
    ∀ part ∈ splitStr c s, c ∉ part.data := by
  intro part hp
  unfold splitStr at hp
  rcases List.mem_map.mp hp with ⟨l, hl, rfl⟩
  exact splitCharList_no_sep c s.data l hl

theorem splitStr_slash_parts (s : String) (h : '/' ∉ s.data) :
    splitStr '/' ("/" ++ s) = ["", s] := by
  unfold splitStr
  have hdata : ("/" ++ s).data = '/' :: s.data := rfl
  rw [hdata]
  show (match splitCharList '/' s.data with
    | [] => [[]]
    | hh :: t => if ('/' == '/') then [] :: hh :: t else ('/' :: hh) :: t).map
      (fun l => (⟨l⟩ : String)) = _
  rw [splitCharList_of_no_sep '/' s.data h]
  rfl

theorem strContains_slash_false (s sub : String) (hs : '/' ∉ s.data)
    (hcount : 2 ≤ sub.data.count '/') : strContainsSub ("/" ++ s) sub = false := by
  cases hc : strContainsSub ("/" ++ s) sub with
  | false => rfl
  | true =>
    exfalso
    have hinf : sub.data <:+: ("/" ++ s).data := listContainsSub_iff_infix.mp hc
    have hle := List.IsInfix.count_le hinf '/'
    have hdata : ("/" ++ s).data = '/' :: s.data := rfl
    rw [hdata, List.count_cons] at hle
    have hzero : s.data.count '/' = 0 := List.count_eq_zero.mpr hs
    rw [hzero] at hle
    simp at hle
    omega

/-! Host classification facts -/

theorem host_ne_of_tiktok {h : String} (ht : strEndsWith h "tiktok.com" = true) :
    (h == "x.com") = false ∧ (h == "vm.dstn.to") = false := by
  constructor
  · cases hb : h == "x.com"
    · rfl
    · rw [eq_of_beq hb] at ht
      exact absurd ht (by decide)
  · cases hb : h == "vm.dstn.to"
    · rfl
    · rw [eq_of_beq hb] at ht
      exact absurd ht (by decide)

theorem host_facts_of_insta {h : String} (hi : strEndsWith h "instagram.com" = true) :
    strEndsWith h "tiktok.com" = false ∧ (h == "x.com") = false := by
  constructor
  · cases hb : strEndsWith h "tiktok.com"
    · rfl
    · exact absurd (not_insta_of_tiktok hb) (by simp [hi])
  · cases hb : h == "x.com"
    · rfl
    · rw [eq_of_beq hb] at hi
      exact absurd hi (by decide)

/-! Step computation lemmas (first components) -/

theorem stepTiktok_rewrite {p : ParsedURL} (hs : strEndsWith p.host "tiktok.com" = true)
    (hph : strContainsSub p.path "/photo/" = false)
    (hl : strContainsSub p.path "/live" = false) :
    (stepTiktok p).1 = { p with host := "vm.dstn.to" } := by
  have hvm := (host_ne_of_tiktok hs).2
  obtain ⟨ps, ph, pp, pq⟩ := p
  unfold stepTiktok
  simp only at hs hph hl hvm
  simp [hs, hph, hl, hvm]

theorem stepTiktok_live {p : ParsedURL} (hs : strEndsWith p.host "tiktok.com" = true)
    (hl : strContainsSub p.path "/live" = true) :
    (stepTiktok p).1 = { p with query := [] } := by
  obtain ⟨ps, ph, pp, pq⟩ := p
  unfold stepTiktok
  simp only at hs hl
  cases hq : pq.isEmpty with
  | true =>
    have hnil : pq = [] := by simpa using hq
    simp [hs, hl, hq, hnil]
  | false => simp [hs, hl, hq]

theorem stepTiktok_skip {p : ParsedURL} (hs : strEndsWith p.host "tiktok.com" = false) :
    (stepTiktok p).1 = p := by
  unfold stepTiktok
  rw [if_neg (by simp [hs])]

theorem stepX_hit {p : ParsedURL} (hx : (p.host == "x.com") = true) :
    (stepX p).1 = { p with host := "fixupx.com" } := by
  have he : p.host = "x.com" := eq_of_beq hx
  obtain ⟨ps, ph, pp, pq⟩ := p
  unfold stepX
  simp only at he
  simp [he]

theorem stepX_skip {p : ParsedURL} (hx : (p.host == "x.com") = false) :
    (stepX p).1 = p := by
  unfold stepX
  rw [if_neg (by rw [hx]; simp)]

theorem stepInsta_skip {p : ParsedURL} (hi : strEndsWith p.host "instagram.com" = false) :
    (stepInsta p).1 = p := by
  unfold stepInsta
  rw [if_neg (by simp [hi])]

theorem stepInsta_fixed {p : ParsedURL} (hi : strEndsWith p.host "instagram.com" = true)
    (hg : (decide ((splitStr '/' p.path).length > 2) &&
      ((splitStr '/' p.path).getD 2 "" == "profilecard")) = false)
    (hr : (strContainsSub p.path "/reel/" || strContainsSub p.path "/p/") = false) :
    (stepInsta p).1 = p := by
  obtain ⟨ps, ph, pp, pq⟩ := p
  unfold stepInsta
  simp only at hi hg hr
  simp at hg hr
  have hg2 : ¬(2 < (splitStr '/' pp).length ∧
      (splitStr '/' pp)[2]?.getD "" = "profilecard") := by
    intro hc
    exact hg hc.1 hc.2
  simp [hi, hg2, hr]

theorem stepInsta_reel_dd {p : ParsedURL} (hi : strEndsWith p.host "instagram.com" = true)
    (hg : (decide ((splitStr '/' p.path).length > 2) &&
      ((splitStr '/' p.path).getD 2 "" == "profilecard")) = false)
    (hr : (strContainsSub p.path "/reel/" || strContainsSub p.path "/p/") = true)
    (hdd : (p.host == "d.ddinstagram.com") = true) :
    (stepInsta p).1 = p := by
  have he : p.host = "d.ddinstagram.com" := eq_of_beq hdd
  obtain ⟨ps, ph, pp, pq⟩ := p
  unfold stepInsta
  simp only at hi hg hr he
  simp at hg hr
  have hg2 : ¬(2 < (splitStr '/' pp).length ∧
      (splitStr '/' pp)[2]?.getD "" = "profilecard") := by
    intro hc
    exact hg hc.1 hc.2
  simp [hi, hg2, hr, he]

theorem stepInsta_reel_hit {p : ParsedURL} (hi : strEndsWith p.host "instagram.com" = true)
    (hg : (decide ((splitStr '/' p.path).length > 2) &&
      ((splitStr '/' p.path).getD 2 "" == "profilecard")) = false)
    (hr : (strContainsSub p.path "/reel/" || strContainsSub p.path "/p/") = true)
    (hdd : (p.host == "d.ddinstagram.com") = false) :
    (stepInsta p).1 = { p with host := "d.ddinstagram.com" } := by
  obtain ⟨ps, ph, pp, pq⟩ := p
  unfold stepInsta
  simp only at hi hg hr hdd
  simp at hg hr hdd
  have hg2 : ¬(2 < (splitStr '/' pp).length ∧
      (splitStr '/' pp)[2]?.getD "" = "profilecard") := by
    intro hc
    exact hg hc.1 hc.2
  simp [hi, hg2, hr, hdd]

theorem stepInsta_collapse {p : ParsedURL} (hi : strEndsWith p.host "instagram.com" = true)
    (hg : (decide ((splitStr '/' p.path).length > 2) &&
      ((splitStr '/' p.path).getD 2 "" == "profilecard")) = true)
    (hr : (strContainsSub ("/" ++ (splitStr '/' p.path).getD 1 "") "/reel/" ||
      strContainsSub ("/" ++ (splitStr '/' p.path).getD 1 "") "/p/") = false) :
    (stepInsta p).1 = { p with path := "/" ++ (splitStr '/' p.path).getD 1 "" } := by
  obtain ⟨ps, ph, pp, pq⟩ := p
  unfold stepInsta
  simp only at hi hg hr
  simp at hg hr
  have hg4 : (splitStr '/' pp)[2] = "profilecard" := by
    have h2 := hg.2
    rw [List.getElem?_eq_getElem hg.1] at h2
    simpa using h2
  simp [hi, hg.1, hg4, hr]

/-! ## The post-expansion stage is idempotent -/

theorem processParsed_else (f : String → FetchRes) (p : ParsedURL)
    (h : (strEndsWith p.host "tiktok.com" && strContainsSub p.path "/photo/") = false) :
    (processParsed f p).url =
      (stepInsta (stepX (stepTiktok
        { p with query := stripParams p.host p.query }).1).1).1 := by
  unfold processParsed
  rw [if_neg (by simp [h])]

theorem processParsed_else_fixed (f : String → FetchRes) (p : ParsedURL)
    (hphoto : (strEndsWith p.host "tiktok.com" && strContainsSub p.path "/photo/") = false)
    (hq : ∀ pr ∈ p.query, shouldRemoveParam pr.1 p.host = false)
    (ht : (stepTiktok p).1 = p)
    (hx : (stepX p).1 = p)
    (hi : (stepInsta p).1 = p) :
    (processParsed f p).url = p := by
  rw [processParsed_else f p hphoto, stripParams_self hq]
  show (stepInsta (stepX (stepTiktok p).1).1).1 = p
  rw [ht, hx, hi]

theorem no_universal_of_safe {k h : String} (hnp : shouldRemoveParam k h = false) :
    universalMatch k = false := by
  unfold shouldRemoveParam at hnp
  exact (Bool.or_eq_false_iff.mp hnp).1

/-- The core of claim C8: applying the post-expansion stage of the canonicalizer
to its own output changes nothing — no parameter rule fires a second time and
no host rewrite loops or re-applies. -/
theorem processParsed_idem (f : String → FetchRes) (q : ParsedURL) :
    (processParsed f (processParsed f q).url).url = (processParsed f q).url := by
  by_cases hphoto : (strEndsWith q.host "tiktok.com" && strContainsSub q.path "/photo/") = true
  · have h1 : strEndsWith q.host "tiktok.com" = true := (Bool.and_eq_true_iff.mp hphoto).1
    have h2 : strContainsSub q.path "/photo/" = true := (Bool.and_eq_true_iff.mp hphoto).2
    rw [processParsed_photo f q h1 h2]
    show (processParsed f { q with query := [] }).url = { q with query := [] }
    rw [processParsed_photo f { q with query := [] } h1 h2]
  · have hph : (strEndsWith q.host "tiktok.com" && strContainsSub q.path "/photo/") = false := by
      cases hv : (strEndsWith q.host "tiktok.com" && strContainsSub q.path "/photo/")
      · rfl
      · exact absurd hv hphoto
    by_cases hg1 : strEndsWith q.host "tiktok.com" = true
    · have hphq : strContainsSub q.path "/photo/" = false := by
        cases hv : strContainsSub q.path "/photo/"
        · rfl
        · exact absurd (by rw [hg1, hv]; rfl) hphoto
      have hxne := (host_ne_of_tiktok hg1).1
      have hins := not_insta_of_tiktok hg1
      by_cases hg2 : strContainsSub q.path "/live" = true
      · -- tiktok live: the query is emptied, the host is kept
        have hu : (processParsed f q).url = { q with query := [] } := by
          rw [processParsed_else f q hph,
            stepTiktok_live (p := { q with query := stripParams q.host q.query }) hg1 hg2,
            stepX_skip (p := { q with query := [] }) hxne,
            stepInsta_skip (p := { q with query := [] }) hins]
        rw [hu]
        apply processParsed_else_fixed
        · exact hph
        · intro pr hpr
          exact absurd hpr (List.not_mem_nil pr)
        · exact stepTiktok_live (p := { q with query := [] }) hg1 hg2
        · exact stepX_skip hxne
        · exact stepInsta_skip hins
      · -- tiktok non-photo non-live: host rewritten to vm.dstn.to
        have hlv : strContainsSub q.path "/live" = false := by
          cases hv : strContainsSub q.path "/live"
          · rfl
          · exact absurd hv hg2
        have hu : (processParsed f q).url =
            { q with host := "vm.dstn.to", query := stripParams q.host q.query } := by
          rw [processParsed_else f q hph,
            stepTiktok_rewrite (p := { q with query := stripParams q.host q.query }) hg1 hphq hlv,
            stepX_skip (show (("vm.dstn.to" : String) == "x.com") = false by decide),
            stepInsta_skip (show strEndsWith "vm.dstn.to" "instagram.com" = false by decide)]
        rw [hu]
        apply processParsed_else_fixed
        · show (strEndsWith "vm.dstn.to" "tiktok.com" && strContainsSub q.path "/photo/") = false
          rw [show strEndsWith "vm.dstn.to" "tiktok.com" = false from by decide, Bool.false_and]
        · intro pr hpr
          have hnp := (mem_stripParams (h := q.host) hpr).2
          rw [shouldRemove_vmdstn]
          exact no_universal_of_safe hnp
        · exact stepTiktok_skip (show strEndsWith "vm.dstn.to" "tiktok.com" = false by decide)
        · exact stepX_skip (show (("vm.dstn.to" : String) == "x.com") = false by decide)
        · exact stepInsta_skip (show strEndsWith "vm.dstn.to" "instagram.com" = false by decide)
    · have hg1f : strEndsWith q.host "tiktok.com" = false := by
        cases hv : strEndsWith q.host "tiktok.com"
        · rfl
        · exact absurd hv hg1
      by_cases hg3 : (q.host == "x.com") = true
      · -- x.com: host rewritten to fixupx.com
        have hu : (processParsed f q).url =
            { q with host := "fixupx.com", query := stripParams q.host q.query } := by
          rw [processParsed_else f q hph,
            stepTiktok_skip (p := { q with query := stripParams q.host q.query }) hg1f,
            stepX_hit (p := { q with query := stripParams q.host q.query }) hg3,
            stepInsta_skip (show strEndsWith "fixupx.com" "instagram.com" = false by decide)]
        rw [hu]
        apply processParsed_else_fixed
        · show (strEndsWith "fixupx.com" "tiktok.com" && strContainsSub q.path "/photo/") = false
          rw [show strEndsWith "fixupx.com" "tiktok.com" = false from by decide, Bool.false_and]
        · intro pr hpr
          have hnp := (mem_stripParams (h := q.host) hpr).2
          show shouldRemoveParam pr.1 "fixupx.com" = false
          rw [shouldRemove_fixupx, ← eq_of_beq hg3]
          exact hnp
        · exact stepTiktok_skip (show strEndsWith "fixupx.com" "tiktok.com" = false by decide)
        · exact stepX_skip (show (("fixupx.com" : String) == "x.com") = false by decide)
        · exact stepInsta_skip (show strEndsWith "fixupx.com" "instagram.com" = false by decide)
      · have hg3f : (q.host == "x.com") = false := by
          cases hv : q.host == "x.com"
          · rfl
          · exact absurd hv hg3
        by_cases hg4 : strEndsWith q.host "instagram.com" = true
        · by_cases hg5 : (decide ((splitStr '/' q.path).length > 2) &&
            ((splitStr '/' q.path).getD 2 "" == "profilecard")) = true
          · -- profilecard collapse
            have hs1 : '/' ∉ ((splitStr '/' q.path).getD 1 "").data := by
              by_cases hlen : 1 < (splitStr '/' q.path).length
              · have heq : (splitStr '/' q.path).getD 1 "" = (splitStr '/' q.path)[1] := by
                  simp [List.getD, List.getElem?_eq_getElem hlen]
                rw [heq]
                exact mem_splitStr_no_sep '/' q.path _ (List.getElem_mem hlen)
              · have hnone : (splitStr '/' q.path)[1]? = none :=
                  List.getElem?_eq_none (by omega)
                have heq : (splitStr '/' q.path).getD 1 "" = "" := by
                  simp [List.getD, hnone]
                rw [heq]
                simp
            have hr1 : strContainsSub ("/" ++ (splitStr '/' q.path).getD 1 "") "/reel/" = false :=
              strContains_slash_false _ _ hs1 (by decide)
            have hr2 : strContainsSub ("/" ++ (splitStr '/' q.path).getD 1 "") "/p/" = false :=
              strContains_slash_false _ _ hs1 (by decide)
            have hrB : (strContainsSub ("/" ++ (splitStr '/' q.path).getD 1 "") "/reel/" ||
                strContainsSub ("/" ++ (splitStr '/' q.path).getD 1 "") "/p/") = false := by
              rw [hr1, hr2]
              rfl
            have hu : (processParsed f q).url =
                { q with path := "/" ++ (splitStr '/' q.path).getD 1 "",
                         query := stripParams q.host q.query } := by
              rw [processParsed_else f q hph,
                stepTiktok_skip (p := { q with query := stripParams q.host q.query }) hg1f,
                stepX_skip (p := { q with query := stripParams q.host q.query }) hg3f,
                stepInsta_collapse (p := { q with query := stripParams q.host q.query }) hg4 hg5 hrB]
            rw [hu]
            apply processParsed_else_fixed
            · show (strEndsWith q.host "tiktok.com" &&
                strContainsSub ("/" ++ (splitStr '/' q.path).getD 1 "") "/photo/") = false
              rw [hg1f, Bool.false_and]
            · intro pr hpr
              exact (mem_stripParams (h := q.host) hpr).2
            · exact stepTiktok_skip hg1f
            · exact stepX_skip hg3f
            · apply stepInsta_fixed
              · exact hg4
              · show (decide ((splitStr '/' ("/" ++ (splitStr '/' q.path).getD 1 "")).length > 2) &&
                  ((splitStr '/' ("/" ++ (splitStr '/' q.path).getD 1 "")).getD 2 "" == "profilecard")) = false
                rw [splitStr_slash_parts _ hs1]
                simp
              · exact hrB
          · have hg5f : (decide ((splitStr '/' q.path).length > 2) &&
                ((splitStr '/' q.path).getD 2 "" == "profilecard")) = false := by
              cases hv : (decide ((splitStr '/' q.path).length > 2) &&
                ((splitStr '/' q.path).getD 2 "" == "profilecard"))
              · rfl
              · exact absurd hv hg5
            by_cases hg6 : (strContainsSub q.path "/reel/" || strContainsSub q.path "/p/") = true
            · by_cases hg7 : (q.host == "d.ddinstagram.com") = true
              · -- already on the mirror host: nothing rewritten
                have hu : (processParsed f q).url =
                    { q with query := stripParams q.host q.query } := by
                  rw [processParsed_else f q hph,
                    stepTiktok_skip (p := { q with query := stripParams q.host q.query }) hg1f,
                    stepX_skip (p := { q with query := stripParams q.host q.query }) hg3f,
                    stepInsta_reel_dd (p := { q with query := stripParams q.host q.query })
                      hg4 hg5f hg6 hg7]
                rw [hu]
                apply processParsed_else_fixed
                · show (strEndsWith q.host "tiktok.com" && strContainsSub q.path "/photo/") = false
                  rw [hg1f, Bool.false_and]
                · intro pr hpr
                  exact (mem_stripParams (h := q.host) hpr).2
                · exact stepTiktok_skip hg1f
                · exact stepX_skip hg3f
                · exact stepInsta_reel_dd hg4 hg5f hg6 hg7
              · -- rewritten to d.ddinstagram.com
                have hg7f : (q.host == "d.ddinstagram.com") = false := by
                  cases hv : q.host == "d.ddinstagram.com"
                  · rfl
                  · exact absurd hv hg7
                have hu : (processParsed f q).url =
                    { q with host := "d.ddinstagram.com",
                             query := stripParams q.host q.query } := by
                  rw [processParsed_else f q hph,
                    stepTiktok_skip (p := { q with query := stripParams q.host q.query }) hg1f,
                    stepX_skip (p := { q with query := stripParams q.host q.query }) hg3f,
                    stepInsta_reel_hit (p := { q with query := stripParams q.host q.query })
                      hg4 hg5f hg6 hg7f]
                rw [hu]
                apply processParsed_else_fixed
                · show (strEndsWith "d.ddinstagram.com" "tiktok.com" &&
                    strContainsSub q.path "/photo/") = false
                  rw [show strEndsWith "d.ddinstagram.com" "tiktok.com" = false from by decide,
                    Bool.false_and]
                · intro pr hpr
                  have hnp := (mem_stripParams (h := q.host) hpr).2
                  show shouldRemoveParam pr.1 "d.ddinstagram.com" = false
                  cases hv : shouldRemoveParam pr.1 "d.ddinstagram.com"
                  · rfl
                  · exact absurd
                      (universalMatch_removes (h := q.host) (shouldRemove_dd pr.1 hv))
                      (by simp [hnp])
                · exact stepTiktok_skip
                    (show strEndsWith "d.ddinstagram.com" "tiktok.com" = false by decide)
                · exact stepX_skip
                    (show (("d.ddinstagram.com" : String) == "x.com") = false by decide)
                · exact stepInsta_reel_dd
                    (show strEndsWith "d.ddinstagram.com" "instagram.com" = true by decide)
                    hg5f hg6
                    (show (("d.ddinstagram.com" : String) == "d.ddinstagram.com") = true by decide)
            · have hg6f : (strContainsSub q.path "/reel/" || strContainsSub q.path "/p/") = false := by
                cases hv : (strContainsSub q.path "/reel/" || strContainsSub q.path "/p/")
                · rfl
                · exact absurd hv hg6
              have hu : (processParsed f q).url =
                  { q with query := stripParams q.host q.query } := by
                rw [processParsed_else f q hph,
                  stepTiktok_skip (p := { q with query := stripParams q.host q.query }) hg1f,
                  stepX_skip (p := { q with query := stripParams q.host q.query }) hg3f,
                  stepInsta_fixed (p := { q with query := stripParams q.host q.query })
                    hg4 hg5f hg6f]
              rw [hu]
              apply processParsed_else_fixed
              · show (strEndsWith q.host "tiktok.com" && strContainsSub q.path "/photo/") = false
                rw [hg1f, Bool.false_and]
              · intro pr hpr
                exact (mem_stripParams (h := q.host) hpr).2
              · exact stepTiktok_skip hg1f
              · exact stepX_skip hg3f
              · exact stepInsta_fixed hg4 hg5f hg6f
        · have hg4f : strEndsWith q.host "instagram.com" = false := by
            cases hv : strEndsWith q.host "instagram.com"
            · rfl
            · exact absurd hv hg4
          have hu : (processParsed f q).url =
              { q with query := stripParams q.host q.query } := by
            rw [processParsed_else f q hph,
              stepTiktok_skip (p := { q with query := stripParams q.host q.query }) hg1f,
              stepX_skip (p := { q with query := stripParams q.host q.query }) hg3f,
              stepInsta_skip (p := { q with query := stripParams q.host q.query }) hg4f]
          rw [hu]
          apply processParsed_else_fixed
          · show (strEndsWith q.host "tiktok.com" && strContainsSub q.path "/photo/") = false
            rw [hg1f, Bool.false_and]
          · intro pr hpr
            exact (mem_stripParams (h := q.host) hpr).2
          · exact stepTiktok_skip hg1f
          · exact stepX_skip hg3f
          · exact stepInsta_skip hg4f

/-- C8 counterexample: the canonicalizer is *not* idempotent as stated.  A
`vm.tiktok.com` photo URL whose expansion probe fails on the first pass keeps
its short host; the first pass only strips the query, so the second pass
triggers the expansion again — and if the probe now succeeds (here resolving to
`example.com/x`), the second application returns a different string. -/
theorem c8_counterexample :
    canonPU
      (fun s => if s == "https://vm.tiktok.com/photo/1"
        then ExpandRes.ok (ParsedURL.mk "https" "example.com" "/x" [])
        else ExpandRes.netFail)
      (fun _ => FetchRes.fail "e")
      (canonPU
        (fun s => if s == "https://vm.tiktok.com/photo/1"
          then ExpandRes.ok (ParsedURL.mk "https" "example.com" "/x" [])
          else ExpandRes.netFail)
        (fun _ => FetchRes.fail "e")
        (ParsedURL.mk "https" "vm.tiktok.com" "/photo/1" [("a", "1")])) ≠
    canonPU
      (fun s => if s == "https://vm.tiktok.com/photo/1"
        then ExpandRes.ok (ParsedURL.mk "https" "example.com" "/x" [])
        else ExpandRes.netFail)
      (fun _ => FetchRes.fail "e")
      (ParsedURL.mk "https" "vm.tiktok.com" "/photo/1" [("a", "1")]) := by
  decide

/-- C8 amended: the canonicalizer is idempotent whenever the second
application's short-link expansion step leaves the once-canonicalized URL
unchanged (it is not triggered, fails, or returns the same URL); in that case no
parameter rule fires a second time and no host rewrite
(`tiktok.com → vm.dstn.to`, `x.com → fixupx.com`,
`instagram.com → d.ddinstagram.com`) loops or re-applies. -/
theorem c8_idempotent_unless_reexpansion (e : String → ExpandRes)
    (f : String → FetchRes) (p : ParsedURL)
    (h : (expandStep e (canonPU e f p)).1 = canonPU e f p) :
    canonPU e f (canonPU e f p) = canonPU e f p := by
  show (processParsed f (expandStep e (canonPU e f p)).1).url = canonPU e f p
  rw [h]
  exact processParsed_idem f ((expandStep e p).1)

/-- Witness for C8's amended claim: an `x.com` status link with a tracking
parameter canonicalizes to a cleaned `fixupx.com` URL, and a second application
(no expansion trigger on the result) returns it unchanged. -/
theorem c8_idempotent_unless_reexpansion_witness :
    canonPU (fun _ => ExpandRes.netFail) (fun _ => FetchRes.fail "e")
      (canonPU (fun _ => ExpandRes.netFail) (fun _ => FetchRes.fail "e")
        (ParsedURL.mk "https" "x.com" "/user/status/1" [("utm_source", "tg")])) =
    canonPU (fun _ => ExpandRes.netFail) (fun _ => FetchRes.fail "e")
      (ParsedURL.mk "https" "x.com" "/user/status/1" [("utm_source", "tg")]) :=
  c8_idempotent_unless_reexpansion _ _ _ (by decide)

end SanitizeBot













